import Mathlib

/-!
# zypper-docker: the classification cache (`cache.go`)

A shallow embedding of the cache of zypper-docker, of the helpers
`parseImageName` and `cmdWithFlags` (`helpers.go`), and the properties
their specification states about them.

Modelling conventions:

* A Go `[]string` is a `List String`; `append(s, x)` is `s ++ [x]`.
* A method on `*cachedData` takes the record and the outside world and
  returns an `Outcome`: the Go return value, the record as the method left
  it, and the world as the method left it.
* The outside world (`World`) is the file system, as seen through
  `os.OpenFile`, together with the log of the calls made to the image probe
  `checkCommandInImage`.
* The collaborators that live outside `cache.go` are arguments:
  `checkCommandInImage` (the probe), `getImageId` (the reference resolver)
  and `encode` (what `json.NewEncoder(file).Encode(cd)` writes for the three
  fields that carry a JSON name). So are `decode` (what
  `json.NewDecoder(file).Decode(&cd)` does to `cd`), `filepath.Join` and the
  environment variable `HOME` (in `Host`). `jsonEncode` and `jsonDecode` are
  the encoder and the decoder of `encoding/json` on the record.
* A Go `string` is a `String`: a text of Unicode characters. `len(s)` is its
  number of bytes in UTF-8, `String.utf8ByteSize`.
* A pointer that may be `nil` is an `Option`.
-/

set_option autoImplicit false

namespace ZypperDocker

/-! ## Data model -/

/-- The constant `cacheName` of `cache.go`. -/
def cacheName : String := "docker-zypper.json"

/-- The struct `cachedData` of `cache.go`: the representation of cached data. -/
structure cachedData where
  /-- The path to the original cache file (`json:"-"`). -/
  Path : String
  /-- The IDs known to be openSUSE/SLE images (`json:"suse"`). -/
  Suse : List String
  /-- The IDs known to be non-openSUSE/SLE images (`json:"other"`). -/
  Other : List String
  /-- The IDs of the images that have been patched or upgraded (`json:"outdated"`). -/
  Outdated : List String
  /-- Whether this data comes from a valid file or not (`json:"-"`). -/
  Valid : Bool
  deriving DecidableEq, Repr

/-- A Go `error` value, represented by its message. -/
abbrev GoError := String

/-- The probe collaborator `checkCommandInImage(img, cmd)`. -/
abbrev Probe := String → String → Bool

/-- The resolver collaborator `getImageId(name)`: an id or an error. -/
abbrev Resolver := String → Except GoError String

/-- The bytes `json.NewEncoder(file).Encode(cd)` writes: a function of the
three fields that carry a JSON name (`Suse`, `Other`, `Outdated`). -/
abbrev Encoder := List String → List String → List String → String

/-- The world outside the process. `files p` is `none` when
`os.OpenFile(p, os.O_RDWR|os.O_TRUNC, 0666)` fails and `some c` when it
succeeds on a file whose content is `c`. `probes` lists the calls made to
`checkCommandInImage` so far, oldest first. -/
structure World where
  files : String → Option String
  probes : List (String × String)

/-- What a method call leaves behind: its return value, the record and the
world. -/
structure Outcome (α : Type) where
  ret : α
  cd : cachedData
  world : World

/-! ## Operations -/

/-- Modelled from the spec: `arrayIncludeString(arr, s)` is defined in
another file of the repository; the spec describes the queries built on it
as a "membership test", and `cmdWithFlags` in `helpers.go` carries the same
loop as its local `arrayInclude`. -/
def arrayIncludeString : List String → String → Bool
  | [], _ => false
  | i :: rest, s => if i = s then true else arrayIncludeString rest s

/-- `cachedData.idExists`: whether the id exists, and whether it is a SUSE
image. -/
def idExists (cd : cachedData) (id : String) : Bool × Bool :=
  let suse := arrayIncludeString cd.Suse id
  let other := arrayIncludeString cd.Other id
  (suse || other, suse)

/-- `cachedData.isImageOutdated`. -/
def isImageOutdated (cd : cachedData) (id : String) : Bool :=
  arrayIncludeString cd.Outdated id

/-- `cachedData.isSUSE`: answer from the cache when the handle is valid and
the id is known (the nested `if cd.Valid { if exists, suse := ...; exists`
of the source, which falls through to the probe in every other case);
otherwise probe the image and, on a valid handle, append the id to `Suse` or
`Other`. The source never calls `flush` here: the files are left alone. -/
def isSUSE (checkCommandInImage : Probe) (cd : cachedData) (id : String) (w : World) :
    Outcome Bool :=
  if cd.Valid && (idExists cd id).1 then
    { ret := (idExists cd id).2, cd := cd, world := w }
  else
    let suse := checkCommandInImage id "zypper"
    let w1 : World := { w with probes := w.probes ++ [(id, "zypper")] }
    if cd.Valid then
      if suse then
        { ret := suse, cd := { cd with Suse := cd.Suse ++ [id] }, world := w1 }
      else
        { ret := suse, cd := { cd with Other := cd.Other ++ [id] }, world := w1 }
    else
      { ret := suse, cd := cd, world := w1 }

/-- `cachedData.flush`: nothing on an invalid handle; nothing when the file
cannot be opened (the error is logged); otherwise the file at `cd.Path` is
truncated and receives the encoding of the record. The results of `Encode`
and `Close` are discarded by the source. -/
def flush (encode : Encoder) (cd : cachedData) (w : World) : Outcome Unit :=
  if !cd.Valid then
    { ret := (), cd := cd, world := w }
  else
    match w.files cd.Path with
    | none => { ret := (), cd := cd, world := w }
    | some _ =>
      { ret := (), cd := cd,
        world := { w with
          files := fun p =>
            if p = cd.Path then some (encode cd.Suse cd.Other cd.Outdated) else w.files p } }

/-- `cachedData.reset`: empty `Suse` and `Other`, then flush. -/
def reset (encode : Encoder) (cd : cachedData) (w : World) : Outcome Unit :=
  flush encode { cd with Suse := [], Other := [] } w

/-- `cachedData.updateCacheAfterUpdate`: the resolver's error is returned as
it is; otherwise the resolved id is appended to `Outdated` and the new id to
`Suse`, each when absent from that list and each followed by a flush. The
return value is the Go `error` (`none` is `nil`). -/
def updateCacheAfterUpdate (getImageId : Resolver) (encode : Encoder) (cd : cachedData)
    (outdatedImg updatedImgId : String) (w : World) : Outcome (Option GoError) :=
  match getImageId outdatedImg with
  | .error err => { ret := some err, cd := cd, world := w }
  | .ok outdatedImgId =>
    let s1 : Outcome Unit :=
      if !arrayIncludeString cd.Outdated outdatedImgId then
        flush encode { cd with Outdated := cd.Outdated ++ [outdatedImgId] } w
      else
        { ret := (), cd := cd, world := w }
    let s2 : Outcome Unit :=
      if !arrayIncludeString s1.cd.Suse updatedImgId then
        flush encode { s1.cd with Suse := s1.cd.Suse ++ [updatedImgId] } s1.world
      else
        s1
    { ret := none, cd := s2.cd, world := s2.world }

/-! ## Concrete collaborators, used to evaluate the model -/

/-- A probe that finds `zypper` in every image. -/
def probeYes : Probe := fun _ _ => true

/-- A probe that finds `zypper` in no image. -/
def probeNo : Probe := fun _ _ => false

/-- A resolver that knows one reference, `myrepo:tag`, whose id is
`oldid456`. -/
def resolveMyrepo : Resolver := fun ref =>
  if ref = "myrepo:tag" then .ok "oldid456" else .error ("no such image: " ++ ref)

/-- One array of the persisted format: the ids between double quotes,
separated by commas, between square brackets. -/
def encodeIds (ids : List String) : String :=
  "[" ++ ",".intercalate (ids.map fun i => "\"" ++ i ++ "\"") ++ "]"

/-- An encoder that writes the persisted format of the cache file for ids
that need no escaping: one JSON object with the keys `suse`, `other` and
`outdated`, and a final newline. -/
def encodePlain : Encoder := fun suse other outdated =>
  "\x7b\"suse\":" ++ encodeIds suse ++ ",\"other\":" ++ encodeIds other
    ++ ",\"outdated\":" ++ encodeIds outdated ++ "\x7d\n"

/-- A file system with one file that can be opened, the cache file under
`/tmp`, holding `content`. -/
def tmpOnly (content : String) : String → Option String := fun p =>
  if p = "/tmp/docker-zypper.json" then some content else none

/-- A world whose only file is the cache file under `/tmp`, empty as
`cachePath` creates it, and in which no probe has run. -/
def freshWorld : World := { files := tmpOnly "", probes := [] }

/-- The valid handle bound to `/tmp/docker-zypper.json` with the given lists. -/
def tmpHandle (suse other outdated : List String) : cachedData :=
  { Path := "/tmp/docker-zypper.json", Suse := suse, Other := other,
    Outdated := outdated, Valid := true }

/-- The handle `getCacheFile` returns when no location could be secured. -/
def invalidHandle : cachedData :=
  { Path := "", Suse := [], Other := [], Outdated := [], Valid := false }

/-- Mutual exclusion (I1, P1): no id is in both `Suse` and `Other`. -/
def mutuallyExclusive (cd : cachedData) : Prop :=
  ∀ id : String, ¬ (id ∈ cd.Suse ∧ id ∈ cd.Other)

/-! ## Locating and loading the cache file (`cachePath`, `getCacheFile`) -/

/-- What `cachePath` reads from the host besides the files of `World`:
`home` is `os.Getenv("HOME")`; `join a b` is `filepath.Join(a, b)`;
`creatable p` tells, for a path `p` that cannot be opened as it is, whether
`os.OpenFile(p, os.O_RDWR|os.O_CREATE, 0666)` succeeds by creating it. -/
structure Host where
  home : String
  join : String → String → String
  creatable : String → Bool

/-- An `*os.File` as `getCacheFile` uses it: `name` is `file.Name()`, the
name it was opened with, and `content` is what reading it yields. -/
structure OpenFile where
  name : String
  content : String
  deriving DecidableEq, Repr

/-- The pieces of a string between the occurrences of a separator: Go's
`strings.Split(s, sep)` for a one-character separator, on the characters of
`s`. A string without separator gives one piece, the string itself. -/
def splitChars (sep : Char) : List Char → List (List Char)
  | [] => [[]]
  | c :: cs =>
    if c = sep then [] :: splitChars sep cs
    else
      match splitChars sep cs with
      | [] => [[c]]
      | piece :: pieces => (c :: piece) :: pieces

/-- Go's `strings.Split(s, sep)` for a one-character separator. -/
def stringsSplit (s : String) (sep : Char) : List String :=
  (splitChars sep s.data).map String.mk

/-- `os.OpenFile(name, os.O_RDWR|os.O_CREATE, 0666)`: a file that can be
opened is opened with its content untouched (no `O_TRUNC`); one that cannot
is created empty when the host allows it; otherwise the call fails. -/
def openOrCreate (host : Host) (w : World) (name : String) : Option (OpenFile × World) :=
  match w.files name with
  | some c => some ({ name := name, content := c }, w)
  | none =>
    if host.creatable name then
      some ({ name := name, content := "" },
        { w with files := fun p => if p = name then some "" else w.files p })
    else
      none

/-- Whether `openOrCreate` succeeds on `name`. -/
def opens (host : Host) (w : World) (name : String) : Bool :=
  (w.files name).isSome || host.creatable name

/-- What a run of `cachePath` leaves: the file it returns (`none` is `nil`),
the names it passed to `os.OpenFile`, in order, and the world. -/
structure PathResult where
  file : Option OpenFile
  opened : List String
  world : World

/-- The inner loop of `cachePath`, `for _, d := range dirs`: the first
directory whose cache file opens ends the search. `opened` carries the names
tried so far. -/
def cachePathDirs (host : Host) : List String → List String → World → PathResult
  | [], opened, w => { file := none, opened := opened, world := w }
  | d :: dirs, opened, w =>
    let name := host.join d cacheName
    match openOrCreate host w name with
    | some (file, w1) => { file := some file, opened := opened ++ [name], world := w1 }
    | none => cachePathDirs host dirs (opened ++ [name]) w

/-- The outer loop of `cachePath`, `for _, dir := range candidates`: each
candidate is split on `:` and handed to the inner loop; a file returned by
the inner loop is returned at once. -/
def cachePathCandidates (host : Host) : List String → List String → World → PathResult
  | [], opened, w => { file := none, opened := opened, world := w }
  | dir :: candidates, opened, w =>
    let r := cachePathDirs host (stringsSplit dir ':') opened w
    match r.file with
    | some _ => r
    | none => cachePathCandidates host candidates r.opened r.world

/-- `cachePath`: try `$HOME/.cache`, then `/tmp`. -/
def cachePath (host : Host) (w : World) : PathResult :=
  cachePathCandidates host [host.join host.home ".cache", "/tmp"] [] w

/-- The file names `cachePath` may try, in the order of the specification:
the parts of `<HOME>/.cache` split on `:`, left to right, then the parts of
`/tmp`, each joined with the cache file's name. -/
def candidateNames (host : Host) : List String :=
  (stringsSplit (host.join host.home ".cache") ':').map (fun d => host.join d cacheName)
    ++ (stringsSplit "/tmp" ':').map (fun d => host.join d cacheName)

/-- What `dec.Decode(&cd)` does in `getCacheFile`, where `cd` points to a
record whose three lists are empty. `failure`: an error is returned, the
lists hold whatever was stored before the error. `null`: the document is the
JSON literal `null`; decoding it through the pointer to the pointer `cd`
sets `cd` to `nil` and returns no error. `record`: no error, the lists are
the decoded ones (a key that is absent leaves its list empty). -/
inductive Decoded where
  | failure (err : GoError) (suse other outdated : List String)
  | null
  | record (suse other outdated : List String)
  deriving DecidableEq, Repr

/-- The decoder collaborator (`encoding/json`), applied to the content of
the file. -/
abbrev Decoder := String → Decoded

/-- What `getCacheFile` leaves: the pointer it returns (`none` is `nil`) and
the world. -/
structure Loaded where
  handle : Option cachedData
  world : World

/-- `getCacheFile`: without a file, the handle is `&cachedData{Valid: false}`;
with one, the record is decoded into `&cachedData{Valid: true, Path:
file.Name()}`; on a decoding error a fresh record of that form is returned;
otherwise `cd` is returned as `Decode` left it. -/
def getCacheFile (host : Host) (decode : Decoder) (w : World) : Loaded :=
  let r := cachePath host w
  match r.file with
  | none =>
    { handle := some { Path := "", Suse := [], Other := [], Outdated := [], Valid := false },
      world := r.world }
  | some file =>
    match decode file.content with
    | .failure _ _ _ _ =>
      { handle := some { Path := file.name, Suse := [], Other := [], Outdated := [],
                         Valid := true },
        world := r.world }
    | .null => { handle := none, world := r.world }
    | .record suse other outdated =>
      { handle := some { Path := file.name, Suse := suse, Other := other,
                         Outdated := outdated, Valid := true },
        world := r.world }

/-! ## `helpers.go` -/

/-- The first occurrence of `sep` cuts the characters in two: what is before
it and what is after it. `none` when `sep` does not occur. -/
def cutFirst (sep : Char) : List Char → Option (List Char × List Char)
  | [] => none
  | c :: cs =>
    if c = sep then some ([], cs)
    else
      match cutFirst sep cs with
      | none => none
      | some (before, after) => some (c :: before, after)

/-- Go's `strings.SplitN(s, sep, 2)` for a one-character separator: the
string itself when `sep` does not occur, otherwise the part before the first
`sep` and the rest. -/
def stringsSplitN2 (s : String) (sep : Char) : List String :=
  match cutFirst sep s.data with
  | none => [s]
  | some (before, after) => [String.mk before, String.mk after]

/-- `parseImageName`: the repository and the tag of an image name. -/
def parseImageName (name : String) : String × String :=
  let target := stringsSplitN2 name ':'
  let repo := target.getD 0 ""
  let tag := if target.length ≠ 2 then "latest" else target.getD 1 ""
  (repo, tag)

/-- Go's `strconv.ParseBool` as `cli.Context.Bool` uses it: the six
spellings of true give true; everything else (the spellings of false, and
the strings on which `ParseBool` returns an error) gives false. -/
def parseBoolOrFalse (s : String) : Bool :=
  s = "1" || s = "t" || s = "T" || s = "TRUE" || s = "true" || s = "True"

/-- The `*cli.Context` of `github.com/codegangsta/cli` as `cmdWithFlags` uses
it: `FlagNames` is `ctx.FlagNames()`; `lookup name` is the text of the value
of the flag `name` in the flag set (`Value.String()`), `none` when the set
has no such flag. -/
structure Context where
  FlagNames : List String
  lookup : String → Option String

/-- `ctx.String(name)`: the text of the flag's value, empty without flag. -/
def Context.StringValue (ctx : Context) (name : String) : String :=
  (ctx.lookup name).getD ""

/-- `ctx.Bool(name)`: the text of the flag's value read by `ParseBool`, false
without flag or on a parse error. -/
def Context.BoolValue (ctx : Context) (name : String) : Bool :=
  match ctx.lookup name with
  | some v => parseBoolOrFalse v
  | none => false

/-- The closure `arrayInclude` of `cmdWithFlags`. -/
def arrayInclude (s : String) : List String → Bool
  | [] => false
  | i :: arr => if i = s then true else arrayInclude s arr

/-- The dash of a flag: `-` when `len(name) == 1` (Go's `len`: the number of
bytes), `--` otherwise. -/
def flagDash (name : String) : String :=
  if name.utf8ByteSize = 1 then "-" else "--"

/-- `cmdWithFlags`: the loop over `ctx.FlagNames()`, `cmd` being the
accumulator. `fmt.Sprintf(" %v%s", dash, name)` is `" " ++ dash ++ name`. -/
def cmdWithFlags (cmd : String) (ctx : Context) (boolFlags : List String) : String :=
  ctx.FlagNames.foldl
    (fun cmd name =>
      let value := ctx.StringValue name
      if value ≠ "" then
        let dash := flagDash name
        if arrayInclude name boolFlags then
          if ctx.BoolValue name then cmd ++ (" " ++ dash ++ name) else cmd
        else
          cmd ++ (" " ++ dash ++ name ++ " " ++ value)
      else cmd)
    cmd

/-- The piece one flag contributes, in the words of the specification: a
flag named in `boolFlags` gives its dashed name when its boolean value is
true and nothing otherwise; any other flag gives its dashed name and its
value when the value is not empty and nothing otherwise. -/
def flagPiece (ctx : Context) (boolFlags : List String) (name : String) : String :=
  if name ∈ boolFlags then
    if ctx.BoolValue name then " " ++ flagDash name ++ name else ""
  else if ctx.StringValue name ≠ "" then
    " " ++ flagDash name ++ name ++ " " ++ ctx.StringValue name
  else ""

/-- The pieces, one after the other. -/
def concatPieces : List String → String
  | [] => ""
  | p :: ps => p ++ concatPieces ps

/-! ## More concrete collaborators -/

/-- `filepath.Join(a, b)` on elements that are already clean: an empty first
element is ignored, otherwise the two are joined by a slash. -/
def joinPlain (a b : String) : String :=
  if a = "" then b else a ++ "/" ++ b

/-- A host whose home is `/home/geeko`, where no file can be created. -/
def hostReadOnly : Host :=
  { home := "/home/geeko", join := joinPlain, creatable := fun _ => false }

/-- A host whose home is `/home/geeko`, where the cache file can be created
under `/tmp` and nowhere else. -/
def hostTmpCreatable : Host :=
  { home := "/home/geeko", join := joinPlain,
    creatable := fun p => p = "/tmp/docker-zypper.json" }

/-- A host whose `HOME` lists two directories, `/srv/a:/srv/b`; the cache
file can be created under `/srv/b/.cache` and under `/tmp`. -/
def hostTwoHomes : Host :=
  { home := "/srv/a:/srv/b", join := joinPlain,
    creatable := fun p => p = "/srv/b/.cache/docker-zypper.json" || p = "/tmp/docker-zypper.json" }

/-- A world without any file that can be opened. -/
def emptyWorld : World := { files := fun _ => none, probes := [] }

/-- The double quote. -/
def quoteChar : Char := Char.ofNat 34

/-- The backslash. -/
def backslashChar : Char := Char.ofNat 92

/-- Whether a character is JSON white space. -/
def isJsonSpace (c : Char) : Bool :=
  c = ' ' || c = Char.ofNat 9 || c = Char.ofNat 10 || c = Char.ofNat 13

/-- Drop the leading white space. -/
def skipSpace : List Char → List Char
  | [] => []
  | c :: cs => if isJsonSpace c then skipSpace cs else c :: cs

/-- Drop the literal `lit` from the front, if it is there. -/
def dropLiteral : List Char → List Char → Option (List Char)
  | [], cs => some cs
  | _ :: _, [] => none
  | l :: lit, c :: cs => if l = c then dropLiteral lit cs else none

/-- After an opening quote: the characters up to the closing quote, and what
follows it. A backslash (an escape) is not handled and ends the reading. -/
def readPlainString : List Char → Option (List Char × List Char)
  | [] => none
  | c :: cs =>
    if c = quoteChar then some ([], cs)
    else if c = backslashChar then none
    else
      match readPlainString cs with
      | none => none
      | some (s, rest) => some (c :: s, rest)

/-- After an id of an array: the closing bracket, or a comma and one more
id. -/
def readMoreIds : Nat → List Char → Option (List String × List Char)
  | 0, _ => none
  | fuel + 1, cs =>
    match dropLiteral "]".data cs with
    | some rest => some ([], rest)
    | none =>
      match dropLiteral [',', quoteChar] cs with
      | none => none
      | some rest =>
        match readPlainString rest with
        | none => none
        | some (s, rest1) =>
          match readMoreIds fuel rest1 with
          | none => none
          | some (ids, rest2) => some (String.mk s :: ids, rest2)

/-- One array of ids: `null`, `[]`, or ids between brackets. -/
def readIds (cs : List Char) : Option (List String × List Char) :=
  match dropLiteral "null".data cs with
  | some rest => some ([], rest)
  | none =>
    match dropLiteral "[]".data cs with
    | some rest => some ([], rest)
    | none =>
      match dropLiteral ['[', quoteChar] cs with
      | none => none
      | some rest =>
        match readPlainString rest with
        | none => none
        | some (s, rest1) =>
          match readMoreIds (rest1.length + 1) rest1 with
          | none => none
          | some (ids, rest2) => some (String.mk s :: ids, rest2)

/-- The three arrays of a document in the form `encodePlain` writes. -/
def readRecord (cs : List Char) : Option (List String × List String × List String) :=
  match dropLiteral "\x7b\"suse\":".data cs with
  | none => none
  | some r1 =>
    match readIds r1 with
    | none => none
    | some (suse, r2) =>
      match dropLiteral ",\"other\":".data r2 with
      | none => none
      | some r3 =>
        match readIds r3 with
        | none => none
        | some (other, r4) =>
          match dropLiteral ",\"outdated\":".data r4 with
          | none => none
          | some r5 =>
            match readIds r5 with
            | none => none
            | some (outdated, r6) =>
              match dropLiteral "\x7d".data r6 with
              | none => none
              | some _ => some (suse, other, outdated)

/-- A decoder for the documents `encodePlain` writes and for the JSON
literal `null`, which is where it agrees with `encoding/json`; any other
content is reported as a decoding failure (`encoding/json` accepts more:
white space inside the document, keys in another order, escapes). -/
def decodePlain : Decoder := fun content =>
  match dropLiteral "null".data (skipSpace content.data) with
  | some _ => .null
  | none =>
    match readRecord (skipSpace content.data) with
    | some (suse, other, outdated) => .record suse other outdated
    | none => .failure "cannot decode the cache file" [] [] []

/-- A context with three flags: `l` (boolean, set), `no-recommends`
(boolean, not set) and `bugzilla` with the value `123`; a fourth name,
`cve`, has an empty value. -/
def sampleContext : Context :=
  { FlagNames := ["l", "no-recommends", "bugzilla", "cve"],
    lookup := fun name =>
      if name = "l" then some "true"
      else if name = "no-recommends" then some "false"
      else if name = "bugzilla" then some "123"
      else if name = "cve" then some ""
      else none }

/-! ## `encoding/json` on the record

What `json.NewEncoder(file).Encode(cd)` writes for a `cachedData`, and what
`json.NewDecoder(file).Decode(&cd)` reads back from such a document. A text
is written between double quotes, with the escapes of `encoding/json` (HTML
escaping is on by default); a slice is written `null` when it is nil and
between square brackets otherwise; the record is one object with the keys
`suse`, `other` and `outdated`, in the order of the fields, followed by a
newline. -/

/-- The hexadecimal digit, in lower case, of a value below 16. -/
def hexDigit (n : Nat) : Char :=
  if n < 10 then Char.ofNat (48 + n) else Char.ofNat (87 + n)

/-- The value of a hexadecimal digit, in either case. -/
def hexValue (c : Char) : Option Nat :=
  if 48 ≤ c.toNat ∧ c.toNat ≤ 57 then some (c.toNat - 48)
  else if 97 ≤ c.toNat ∧ c.toNat ≤ 102 then some (c.toNat - 87)
  else if 65 ≤ c.toNat ∧ c.toNat ≤ 70 then some (c.toNat - 55)
  else none

/-- The value of four hexadecimal digits (`getu4`). -/
def hex4 (a b c d : Char) : Option Nat :=
  match hexValue a, hexValue b, hexValue c, hexValue d with
  | some va, some vb, some vc, some vd => some (((va * 16 + vb) * 16 + vc) * 16 + vd)
  | _, _, _, _ => none

/-- What the encoder writes after a backslash for a character it escapes;
`none` for a character it copies. The quote and the backslash are written
after a backslash; backspace, form feed, newline, carriage return and tab
have a letter (`b`, `f`, `n`, `r`, `t`; releases of Go before 1.22 write
`u0008` and `u000c` for the first two, which the decoder reads as well);
the other characters below U+0020 and `<`, `>`, `&` are written `u00` and
two digits; U+2028 and U+2029 are written `u2028` and `u2029`. -/
def escapeBody (c : Char) : Option (List Char) :=
  if c = quoteChar ∨ c = backslashChar then some [c]
  else if c = Char.ofNat 8 then some ['b']
  else if c = Char.ofNat 12 then some ['f']
  else if c = Char.ofNat 10 then some ['n']
  else if c = Char.ofNat 13 then some ['r']
  else if c = Char.ofNat 9 then some ['t']
  else if c.toNat < 32 ∨ c = '<' ∨ c = '>' ∨ c = '&' then
    some ['u', '0', '0', hexDigit (c.toNat / 16), hexDigit (c.toNat % 16)]
  else if c = Char.ofNat 8232 ∨ c = Char.ofNat 8233 then
    some ['u', '2', '0', '2', hexDigit (c.toNat % 16)]
  else none

/-- One character as the encoder writes it inside a text. -/
def escapeChar (c : Char) : List Char :=
  match escapeBody c with
  | some body => backslashChar :: body
  | none => [c]

/-- The characters of a text as the encoder writes them. -/
def escapeChars : List Char → List Char
  | [] => []
  | c :: cs => escapeChar c ++ escapeChars cs

/-- A text as the encoder writes it: escaped, between double quotes. -/
def jsonStringChars (s : String) : List Char :=
  quoteChar :: (escapeChars s.data ++ [quoteChar])

/-- The ids of an array after its first id, and the closing bracket. -/
def jsonMoreIds : List String → List Char
  | [] => [']']
  | i :: ids => ',' :: (jsonStringChars i ++ jsonMoreIds ids)

/-- A `[]string` as the encoder writes it; `isNil` tells whether the empty
list stands for the nil slice, which is written `null`. -/
def jsonIds (isNil : Bool) : List String → List Char
  | [] => if isNil then "null".data else "[]".data
  | i :: ids => '[' :: (jsonStringChars i ++ jsonMoreIds ids)

/-- For each of `Suse`, `Other` and `Outdated`: whether the empty list stands
for the nil slice (as in the handle `getCacheFile` builds) or for an empty
one (as after `reset`). A list with an id is never nil. -/
structure NilSlices where
  suse : Bool
  other : Bool
  outdated : Bool

/-- The encoder of `encoding/json` on a `cachedData`. -/
def jsonEncode (nils : NilSlices) : Encoder := fun suse other outdated =>
  String.mk ("\x7b\"suse\":".data ++ (jsonIds nils.suse suse
    ++ (",\"other\":".data ++ (jsonIds nils.other other
    ++ (",\"outdated\":".data ++ (jsonIds nils.outdated outdated ++ "\x7d\n".data))))))

/-- The character a one-letter escape stands for. -/
def unescape (e : Char) : Option Char :=
  if e = quoteChar ∨ e = backslashChar ∨ e = '/' then some e
  else if e = 'b' then some (Char.ofNat 8)
  else if e = 'f' then some (Char.ofNat 12)
  else if e = 'n' then some (Char.ofNat 10)
  else if e = 'r' then some (Char.ofNat 13)
  else if e = 't' then some (Char.ofNat 9)
  else none

/-- After an escape `uXXXX` whose value `n` is a surrogate: when `n` is a
high surrogate and a second escape with a low surrogate follows, the
character the pair stands for, and what follows the pair. -/
def secondSurrogate (n : Nat) (cs : List Char) : Option (Char × List Char) :=
  match cs with
  | b :: u :: g1 :: g2 :: g3 :: g4 :: rest =>
    if b = backslashChar ∧ u = 'u' then
      match hex4 g1 g2 g3 g4 with
      | some m =>
        if n < 56320 ∧ 56320 ≤ m ∧ m < 57344 then
          some (Char.ofNat ((n - 55296) * 1024 + (m - 56320) + 65536), rest)
        else none
      | none => none
    else none
  | _ => none

/-- After a backslash: the character the escape stands for, and what
follows the escape. A surrogate that is not part of a pair is read as
U+FFFD. -/
def readEscape (cs : List Char) : Option (Char × List Char) :=
  match cs with
  | [] => none
  | e :: rest =>
    if e = 'u' then
      match rest with
      | h1 :: h2 :: h3 :: h4 :: rest1 =>
        match hex4 h1 h2 h3 h4 with
        | none => none
        | some n =>
          if 55296 ≤ n ∧ n < 57344 then
            match secondSurrogate n rest1 with
            | some (ch, rest2) => some (ch, rest2)
            | none => some (Char.ofNat 65533, rest1)
          else some (Char.ofNat n, rest1)
      | _ => none
    else
      match unescape e with
      | none => none
      | some ch => some (ch, rest)

/-- After an opening quote: the text up to the closing quote, escapes
resolved, and what follows the closing quote. A character below U+0020 is
not allowed in a text. -/
def readJsonString : Nat → List Char → Option (List Char × List Char)
  | 0, _ => none
  | _ + 1, [] => none
  | fuel + 1, c :: cs =>
    if c = quoteChar then some ([], cs)
    else if c = backslashChar then
      match readEscape cs with
      | none => none
      | some (ch, rest) => (readJsonString fuel rest).map (fun p => (ch :: p.1, p.2))
    else if c.toNat < 32 then none
    else (readJsonString fuel cs).map (fun p => (c :: p.1, p.2))

/-- After an id of an array: the closing bracket, or a comma and one more
id. -/
def readJsonMoreIds : Nat → List Char → Option (List String × List Char)
  | 0, _ => none
  | fuel + 1, cs =>
    match dropLiteral "]".data cs with
    | some rest => some ([], rest)
    | none =>
      match dropLiteral [',', quoteChar] cs with
      | none => none
      | some rest =>
        match readJsonString (rest.length + 1) rest with
        | none => none
        | some (s, rest1) =>
          match readJsonMoreIds fuel rest1 with
          | none => none
          | some (ids, rest2) => some (String.mk s :: ids, rest2)

/-- One array of ids: `null` (the list stays empty), `[]`, or ids between
brackets. -/
def readJsonIds (cs : List Char) : Option (List String × List Char) :=
  match dropLiteral "null".data cs with
  | some rest => some ([], rest)
  | none =>
    match dropLiteral "[]".data cs with
    | some rest => some ([], rest)
    | none =>
      match dropLiteral ['[', quoteChar] cs with
      | none => none
      | some rest =>
        match readJsonString (rest.length + 1) rest with
        | none => none
        | some (s, rest1) =>
          match readJsonMoreIds (rest1.length + 1) rest1 with
          | none => none
          | some (ids, rest2) => some (String.mk s :: ids, rest2)

/-- The three arrays of a document laid out as the encoder writes it. -/
def readJsonRecord (cs : List Char) : Option (List String × List String × List String) :=
  match dropLiteral "\x7b\"suse\":".data cs with
  | none => none
  | some r1 =>
    match readJsonIds r1 with
    | none => none
    | some (suse, r2) =>
      match dropLiteral ",\"other\":".data r2 with
      | none => none
      | some r3 =>
        match readJsonIds r3 with
        | none => none
        | some (other, r4) =>
          match dropLiteral ",\"outdated\":".data r4 with
          | none => none
          | some r5 =>
            match readJsonIds r5 with
            | none => none
            | some (outdated, r6) =>
              match dropLiteral "\x7d".data r6 with
              | none => none
              | some _ => some (suse, other, outdated)

/-- The decoder of `encoding/json` on the documents the encoder writes for a
`cachedData` (`jsonDecode_jsonEncode` below) and on the JSON literal `null`,
every escape of a JSON text being read. A document in another layout (white
space inside, other keys, another order of the keys), which `encoding/json`
accepts, is reported as a decoding failure here. -/
def jsonDecode : Decoder := fun content =>
  match dropLiteral "null".data (skipSpace content.data) with
  | some _ => .null
  | none =>
    match readJsonRecord (skipSpace content.data) with
    | some (suse, other, outdated) => .record suse other outdated
    | none => .failure "cannot decode the cache file" [] [] []

/-- Every slice nil: the record `getCacheFile` builds before decoding. -/
def allNil : NilSlices := { suse := true, other := true, outdated := true }

/-- No slice nil. -/
def noneNil : NilSlices := { suse := false, other := false, outdated := false }

/-- A context with one flag, `é`, whose value is `1`: a name of one
character that takes two bytes. -/
def accentContext : Context :=
  { FlagNames := ["é"], lookup := fun name => if name = "é" then some "1" else none }

/-! ## Basic facts about the operations -/

theorem arrayIncludeString_iff (arr : List String) (s : String) :
    arrayIncludeString arr s = true ↔ s ∈ arr := by
  induction arr with
  | nil => simp [arrayIncludeString]
  | cons i rest ih =>
    by_cases h : i = s
    · simp [arrayIncludeString, h]
    · have h2 : ¬ s = i := fun e => h e.symm
      simp [arrayIncludeString, h, h2, ih]

theorem arrayIncludeString_false_iff (arr : List String) (s : String) :
    arrayIncludeString arr s = false ↔ s ∉ arr := by
  rw [← arrayIncludeString_iff]; simp

theorem arrayIncludeString_eq_decide (arr : List String) (s : String) :
    arrayIncludeString arr s = decide (s ∈ arr) := by
  by_cases h : s ∈ arr
  · simp [h, (arrayIncludeString_iff arr s).2 h]
  · simp [h, (arrayIncludeString_false_iff arr s).2 h]

theorem flush_cd (encode : Encoder) (cd : cachedData) (w : World) :
    (flush encode cd w).cd = cd := by
  unfold flush
  split
  · rfl
  · split <;> rfl

theorem flush_probes (encode : Encoder) (cd : cachedData) (w : World) :
    (flush encode cd w).world.probes = w.probes := by
  unfold flush
  split
  · rfl
  · split <;> rfl

theorem flush_invalid (encode : Encoder) (cd : cachedData) (w : World)
    (h : cd.Valid = false) : (flush encode cd w).world = w := by
  simp [flush, h]

theorem flush_written (encode : Encoder) (cd : cachedData) (w : World) (c : String)
    (hv : cd.Valid = true) (hf : w.files cd.Path = some c) :
    (flush encode cd w).world.files cd.Path = some (encode cd.Suse cd.Other cd.Outdated) := by
  simp [flush, hv, hf]

theorem isSUSE_files (probe : Probe) (cd : cachedData) (id : String) (w : World) :
    (isSUSE probe cd id w).world.files = w.files := by
  unfold isSUSE
  split
  · rfl
  · dsimp only
    split
    · split <;> rfl
    · rfl

theorem isSUSE_outdated (probe : Probe) (cd : cachedData) (id : String) (w : World) :
    (isSUSE probe cd id w).cd.Outdated = cd.Outdated := by
  unfold isSUSE
  split
  · rfl
  · dsimp only
    split
    · split <;> rfl
    · rfl

/-- The record `updateCacheAfterUpdate` leaves when the reference resolves. -/
theorem updateCacheAfterUpdate_cd_ok (getImageId : Resolver) (encode : Encoder)
    (cd : cachedData) (outdatedImg updatedImgId o : String) (w : World)
    (h : getImageId outdatedImg = .ok o) :
    (updateCacheAfterUpdate getImageId encode cd outdatedImg updatedImgId w).cd =
      { cd with
        Outdated := if o ∈ cd.Outdated then cd.Outdated else cd.Outdated ++ [o]
        Suse := if updatedImgId ∈ cd.Suse then cd.Suse else cd.Suse ++ [updatedImgId] } := by
  simp only [updateCacheAfterUpdate, h, arrayIncludeString_eq_decide]
  by_cases h1 : o ∈ cd.Outdated <;> by_cases h2 : updatedImgId ∈ cd.Suse <;>
    simp [h1, h2, flush_cd]

theorem updateCacheAfterUpdate_error (getImageId : Resolver) (encode : Encoder)
    (cd : cachedData) (outdatedImg updatedImgId : String) (err : GoError) (w : World)
    (h : getImageId outdatedImg = .error err) :
    updateCacheAfterUpdate getImageId encode cd outdatedImg updatedImgId w =
      { ret := some err, cd := cd, world := w } := by
  simp [updateCacheAfterUpdate, h]

/-! ## C1: mutual exclusion -/

/-- C1, as stated, fails: on a handle whose `Other` holds `newid123` and
whose `Suse` is empty (so no id is in both), recording an update whose new
image id is `newid123` appends it to `Suse`: it is then in both lists. -/
theorem C1_counterexample :
    mutuallyExclusive (tmpHandle [] ["newid123"] []) ∧
    (updateCacheAfterUpdate resolveMyrepo encodePlain (tmpHandle [] ["newid123"] [])
        "myrepo:tag" "newid123" freshWorld).cd
      = tmpHandle ["newid123"] ["newid123"] ["oldid456"] ∧
    ¬ mutuallyExclusive
        (updateCacheAfterUpdate resolveMyrepo encodePlain (tmpHandle [] ["newid123"] [])
          "myrepo:tag" "newid123" freshWorld).cd := by
  have hcd : (updateCacheAfterUpdate resolveMyrepo encodePlain (tmpHandle [] ["newid123"] [])
        "myrepo:tag" "newid123" freshWorld).cd
      = tmpHandle ["newid123"] ["newid123"] ["oldid456"] := by decide
  refine ⟨?_, hcd, ?_⟩
  · intro id h
    simp [tmpHandle] at h
  · rw [hcd]
    intro h
    exact h "newid123" (by simp [tmpHandle])

/-- C1, amended: on a handle in which no id is in both `Suse` and `Other`,
`isSUSE` and `reset` leave a handle with the same property, for every probe,
encoder, id and world; `updateCacheAfterUpdate` leaves such a handle exactly
when the reference fails to resolve or `updatedImgId` is not in `Other`. -/
theorem C1_mutual_exclusion (probe : Probe) (getImageId : Resolver) (encode : Encoder)
    (cd : cachedData) (id outdatedImg updatedImgId : String) (w : World)
    (h : mutuallyExclusive cd) :
    mutuallyExclusive (isSUSE probe cd id w).cd ∧
    mutuallyExclusive (reset encode cd w).cd ∧
    (mutuallyExclusive (updateCacheAfterUpdate getImageId encode cd outdatedImg updatedImgId w).cd
      ↔ ((∃ err, getImageId outdatedImg = .error err) ∨ updatedImgId ∉ cd.Other)) := by
  refine ⟨?_, ?_, ?_⟩
  · unfold isSUSE
    split
    · exact h
    · rename_i hmiss
      dsimp only
      cases hv : cd.Valid
      · simpa [hv] using h
      · have hex : arrayIncludeString cd.Suse id = false ∧
            arrayIncludeString cd.Other id = false := by
          simpa [hv, idExists] using hmiss
        have hs : id ∉ cd.Suse := (arrayIncludeString_false_iff _ _).1 hex.1
        have ho : id ∉ cd.Other := (arrayIncludeString_false_iff _ _).1 hex.2
        cases hp : probe id "zypper"
        · intro x hx
          simp only [hp, if_true, Bool.false_eq_true, if_false, List.mem_append,
            List.mem_singleton] at hx
          rcases hx with ⟨hx1, hx2 | hx2⟩
          · exact h x ⟨hx1, hx2⟩
          · exact hs (hx2 ▸ hx1)
        · intro x hx
          simp only [hp, if_true, List.mem_append, List.mem_singleton] at hx
          rcases hx with ⟨hx1 | hx1, hx2⟩
          · exact h x ⟨hx1, hx2⟩
          · exact ho (hx1 ▸ hx2)
  · intro x hx
    simp [reset, flush_cd] at hx
  · cases hr : getImageId outdatedImg with
    | error err =>
      rw [updateCacheAfterUpdate_error getImageId encode cd outdatedImg updatedImgId err w hr]
      simp [h]
    | ok o =>
      rw [updateCacheAfterUpdate_cd_ok getImageId encode cd outdatedImg updatedImgId o w hr]
      constructor
      · intro hme
        right
        intro hmem
        apply hme updatedImgId
        refine ⟨?_, hmem⟩
        dsimp only
        split
        · assumption
        · simp
      · rintro (⟨err, herr⟩ | hno)
        · cases herr
        · intro x hx
          dsimp only at hx
          rcases hx with ⟨hx1, hx2⟩
          split at hx1
          · exact h x ⟨hx1, hx2⟩
          · rcases List.mem_append.1 hx1 with hx1 | hx1
            · exact h x ⟨hx1, hx2⟩
            · exact hno ((List.mem_singleton.1 hx1) ▸ hx2)

/-- C1, amended, at a concrete handle: `Suse = ["1"]`, `Other = ["3"]`, the
update of `myrepo:tag` to `newid123`. -/
theorem C1_mutual_exclusion_witness :
    mutuallyExclusive (isSUSE probeNo (tmpHandle ["1"] ["3"] []) "2" freshWorld).cd ∧
    mutuallyExclusive (reset encodePlain (tmpHandle ["1"] ["3"] []) freshWorld).cd ∧
    mutuallyExclusive (updateCacheAfterUpdate resolveMyrepo encodePlain
      (tmpHandle ["1"] ["3"] []) "myrepo:tag" "newid123" freshWorld).cd := by
  have hme : mutuallyExclusive (tmpHandle ["1"] ["3"] []) := by
    intro id h
    simp only [tmpHandle, List.mem_singleton] at h
    rcases h with ⟨h1, h3⟩
    rw [h1] at h3
    exact absurd h3 (by decide)
  have key := C1_mutual_exclusion probeNo resolveMyrepo encodePlain (tmpHandle ["1"] ["3"] [])
    "2" "myrepo:tag" "newid123" freshWorld hme
  refine ⟨key.1, key.2.1, key.2.2.2 (Or.inr ?_)⟩
  simp [tmpHandle]

/-! ## C2: lazy fill and the backing file -/

/-- C2, as stated, fails: on the valid, empty handle bound to the writable,
empty file `/tmp/docker-zypper.json`, `isSUSE("abc")` with a probe that
answers true records `abc` in `Suse`, yet the file is still empty when the
call returns: it does not hold the serialization of the updated record. -/
theorem C2_counterexample :
    (tmpHandle [] [] []).Valid = true ∧
    freshWorld.files (tmpHandle [] [] []).Path = some "" ∧
    (idExists (tmpHandle [] [] []) "abc").1 = false ∧
    (isSUSE probeYes (tmpHandle [] [] []) "abc" freshWorld).cd = tmpHandle ["abc"] [] [] ∧
    (isSUSE probeYes (tmpHandle [] [] []) "abc" freshWorld).world.files
        "/tmp/docker-zypper.json" = some "" ∧
    (isSUSE probeYes (tmpHandle [] [] []) "abc" freshWorld).world.files
        "/tmp/docker-zypper.json"
      ≠ some (encodePlain ["abc"] [] []) := by
  refine ⟨rfl, by decide, by decide, by decide, by decide, by decide⟩

/-- C2, amended: on a valid handle whose backing file can be opened, for an
id in neither `Suse` nor `Other`, `isSUSE(id)` records the id in memory only:
the record it leaves contains the id, every file is as it was, and the
backing file holds the serialization of the full updated record once
`flush()` is called on that record. -/
theorem C2_lazy_fill_in_memory (probe : Probe) (encode : Encoder) (cd : cachedData)
    (id c : String) (w : World)
    (hv : cd.Valid = true) (hf : w.files cd.Path = some c)
    (hs : id ∉ cd.Suse) (ho : id ∉ cd.Other) :
    (id ∈ (isSUSE probe cd id w).cd.Suse ∨ id ∈ (isSUSE probe cd id w).cd.Other) ∧
    (isSUSE probe cd id w).world.files = w.files ∧
    (flush encode (isSUSE probe cd id w).cd (isSUSE probe cd id w).world).world.files cd.Path
      = some (encode (isSUSE probe cd id w).cd.Suse (isSUSE probe cd id w).cd.Other
          (isSUSE probe cd id w).cd.Outdated) := by
  have hes : arrayIncludeString cd.Suse id = false := (arrayIncludeString_false_iff _ _).2 hs
  have heo : arrayIncludeString cd.Other id = false := (arrayIncludeString_false_iff _ _).2 ho
  refine ⟨?_, isSUSE_files probe cd id w, ?_⟩
  · cases hp : probe id "zypper" <;> simp [isSUSE, idExists, hv, hes, heo, hp]
  · have hpath : (isSUSE probe cd id w).cd.Path = cd.Path := by
      cases hp : probe id "zypper" <;> simp [isSUSE, idExists, hv, hes, heo, hp]
    have hvalid : (isSUSE probe cd id w).cd.Valid = true := by
      cases hp : probe id "zypper" <;> simp [isSUSE, idExists, hv, hes, heo, hp]
    have hfile : (isSUSE probe cd id w).world.files (isSUSE probe cd id w).cd.Path = some c := by
      rw [isSUSE_files, hpath, hf]
    have key := flush_written encode (isSUSE probe cd id w).cd (isSUSE probe cd id w).world c
      hvalid hfile
    rw [hpath] at key
    exact key

/-- C2, amended, on the cold cache of scenario 1: after `isSUSE("abc")` the
file is still empty, and a flush writes the record that contains `abc`. -/
theorem C2_lazy_fill_in_memory_witness :
    ("abc" ∈ (isSUSE probeYes (tmpHandle [] [] []) "abc" freshWorld).cd.Suse ∨
      "abc" ∈ (isSUSE probeYes (tmpHandle [] [] []) "abc" freshWorld).cd.Other) ∧
    (isSUSE probeYes (tmpHandle [] [] []) "abc" freshWorld).world.files = freshWorld.files ∧
    (flush encodePlain (isSUSE probeYes (tmpHandle [] [] []) "abc" freshWorld).cd
        (isSUSE probeYes (tmpHandle [] [] []) "abc" freshWorld).world).world.files
        (tmpHandle [] [] []).Path
      = some (encodePlain (isSUSE probeYes (tmpHandle [] [] []) "abc" freshWorld).cd.Suse
          (isSUSE probeYes (tmpHandle [] [] []) "abc" freshWorld).cd.Other
          (isSUSE probeYes (tmpHandle [] [] []) "abc" freshWorld).cd.Outdated) :=
  C2_lazy_fill_in_memory probeYes encodePlain (tmpHandle [] [] []) "abc" "" freshWorld
    rfl (by decide) (by simp [tmpHandle]) (by simp [tmpHandle])

/-! ## C3: memoization -/

/-- C3: on a valid handle, `isSUSE(id)` called twice in a row returns the
same boolean both times; the two calls together add at most one entry to
the probe log; the second call adds none and leaves the record (and the
files) as the first call left them. -/
theorem C3_memoization (probe : Probe) (cd : cachedData) (id : String) (w : World)
    (hv : cd.Valid = true) :
    (isSUSE probe (isSUSE probe cd id w).cd id (isSUSE probe cd id w).world).ret
      = (isSUSE probe cd id w).ret ∧
    (isSUSE probe (isSUSE probe cd id w).cd id (isSUSE probe cd id w).world).world.probes.length
      ≤ w.probes.length + 1 ∧
    (isSUSE probe (isSUSE probe cd id w).cd id (isSUSE probe cd id w).world).world.probes
      = (isSUSE probe cd id w).world.probes ∧
    (isSUSE probe (isSUSE probe cd id w).cd id (isSUSE probe cd id w).world).cd
      = (isSUSE probe cd id w).cd ∧
    (isSUSE probe (isSUSE probe cd id w).cd id (isSUSE probe cd id w).world).world.files
      = (isSUSE probe cd id w).world.files := by
  cases hs : arrayIncludeString cd.Suse id <;> cases ho : arrayIncludeString cd.Other id <;>
    cases hp : probe id "zypper" <;>
    simp [isSUSE, idExists, hv, hs, ho, hp, arrayIncludeString_eq_decide]

/-- C3 on the cold cache: `isSUSE("abc")` twice, with a probe that answers
true. -/
theorem C3_memoization_witness :
    (isSUSE probeYes (isSUSE probeYes (tmpHandle [] [] []) "abc" freshWorld).cd "abc"
        (isSUSE probeYes (tmpHandle [] [] []) "abc" freshWorld).world).ret
      = (isSUSE probeYes (tmpHandle [] [] []) "abc" freshWorld).ret ∧
    (isSUSE probeYes (isSUSE probeYes (tmpHandle [] [] []) "abc" freshWorld).cd "abc"
        (isSUSE probeYes (tmpHandle [] [] []) "abc" freshWorld).world).world.probes.length
      ≤ freshWorld.probes.length + 1 ∧
    (isSUSE probeYes (isSUSE probeYes (tmpHandle [] [] []) "abc" freshWorld).cd "abc"
        (isSUSE probeYes (tmpHandle [] [] []) "abc" freshWorld).world).world.probes
      = (isSUSE probeYes (tmpHandle [] [] []) "abc" freshWorld).world.probes ∧
    (isSUSE probeYes (isSUSE probeYes (tmpHandle [] [] []) "abc" freshWorld).cd "abc"
        (isSUSE probeYes (tmpHandle [] [] []) "abc" freshWorld).world).cd
      = (isSUSE probeYes (tmpHandle [] [] []) "abc" freshWorld).cd ∧
    (isSUSE probeYes (isSUSE probeYes (tmpHandle [] [] []) "abc" freshWorld).cd "abc"
        (isSUSE probeYes (tmpHandle [] [] []) "abc" freshWorld).world).world.files
      = (isSUSE probeYes (tmpHandle [] [] []) "abc" freshWorld).world.files :=
  C3_memoization probeYes (tmpHandle [] [] []) "abc" freshWorld rfl

/-! ## C4: warm hit -/

/-- C4: on a valid handle, for an id that is in `Suse` or in `Other`,
`isSUSE(id)` returns true exactly when the id is in `Suse`, whatever the
probe answers; it adds nothing to the probe log and leaves the record
(`Suse`, `Other`, `Outdated`) and every file unchanged. -/
theorem C4_warm_hit (probe : Probe) (cd : cachedData) (id : String) (w : World)
    (hv : cd.Valid = true) (hk : id ∈ cd.Suse ∨ id ∈ cd.Other) :
    ((isSUSE probe cd id w).ret = true ↔ id ∈ cd.Suse) ∧
    (isSUSE probe cd id w).world.probes = w.probes ∧
    (isSUSE probe cd id w).cd = cd ∧
    (isSUSE probe cd id w).world.files = w.files := by
  have hex : (arrayIncludeString cd.Suse id || arrayIncludeString cd.Other id) = true := by
    rcases hk with h | h
    · simp [(arrayIncludeString_iff _ _).2 h]
    · simp [(arrayIncludeString_iff _ _).2 h]
  simp [isSUSE, idExists, hv, hex, arrayIncludeString_iff]

/-- C4 on the warm cache of scenario 2 (`Suse = ["1"]`, `Other = ["3"]`):
`isSUSE("1")` with a probe that would answer false. -/
theorem C4_warm_hit_witness :
    ((isSUSE probeNo (tmpHandle ["1"] ["3"] []) "1" freshWorld).ret = true
      ↔ "1" ∈ (tmpHandle ["1"] ["3"] []).Suse) ∧
    (isSUSE probeNo (tmpHandle ["1"] ["3"] []) "1" freshWorld).world.probes
      = freshWorld.probes ∧
    (isSUSE probeNo (tmpHandle ["1"] ["3"] []) "1" freshWorld).cd = tmpHandle ["1"] ["3"] [] ∧
    (isSUSE probeNo (tmpHandle ["1"] ["3"] []) "1" freshWorld).world.files = freshWorld.files :=
  C4_warm_hit probeNo (tmpHandle ["1"] ["3"] []) "1" freshWorld rfl
    (Or.inl (by simp [tmpHandle]))

/-! ## C5: cold miss -/

/-- C5: on a valid handle, for an id in neither `Suse` nor `Other`,
`isSUSE(id)` returns the probe's answer for the id, and `idExists(id)` on the
record it leaves returns `(true, b)` with `b` that answer. -/
theorem C5_cold_miss (probe : Probe) (cd : cachedData) (id : String) (w : World)
    (hv : cd.Valid = true) (hs : id ∉ cd.Suse) (ho : id ∉ cd.Other) :
    (isSUSE probe cd id w).ret = probe id "zypper" ∧
    idExists (isSUSE probe cd id w).cd id = (true, probe id "zypper") := by
  have hes : arrayIncludeString cd.Suse id = false := (arrayIncludeString_false_iff _ _).2 hs
  have heo : arrayIncludeString cd.Other id = false := (arrayIncludeString_false_iff _ _).2 ho
  cases hp : probe id "zypper" <;>
    simp [isSUSE, idExists, hv, hes, heo, hp, arrayIncludeString_eq_decide, hs]

/-- C5 on the cold cache of scenario 1: id `abc`, the probe answers true. -/
theorem C5_cold_miss_witness :
    (isSUSE probeYes (tmpHandle [] [] []) "abc" freshWorld).ret = probeYes "abc" "zypper" ∧
    idExists (isSUSE probeYes (tmpHandle [] [] []) "abc" freshWorld).cd "abc"
      = (true, probeYes "abc" "zypper") :=
  C5_cold_miss probeYes (tmpHandle [] [] []) "abc" freshWorld rfl
    (by simp [tmpHandle]) (by simp [tmpHandle])

/-! ## C6: invalid handles pass through -/

/-- C6: on a handle with `Valid = false`, whatever its lists hold,
`isSUSE(id)` invokes the probe (one entry is added to the probe log) and
returns its answer, and leaves the record unchanged; and none of `isSUSE`,
`flush`, `reset` and `updateCacheAfterUpdate` changes any file. -/
theorem C6_invalid_pass_through (probe : Probe) (getImageId : Resolver) (encode : Encoder)
    (cd : cachedData) (id outdatedImg updatedImgId : String) (w : World)
    (hv : cd.Valid = false) :
    (isSUSE probe cd id w).ret = probe id "zypper" ∧
    (isSUSE probe cd id w).world.probes = w.probes ++ [(id, "zypper")] ∧
    (isSUSE probe cd id w).cd = cd ∧
    (isSUSE probe cd id w).world.files = w.files ∧
    (flush encode cd w).world.files = w.files ∧
    (reset encode cd w).world.files = w.files ∧
    (updateCacheAfterUpdate getImageId encode cd outdatedImg updatedImgId w).world.files
      = w.files := by
  refine ⟨?_, ?_, ?_, isSUSE_files probe cd id w, ?_, ?_, ?_⟩
  · simp [isSUSE, hv]
  · simp [isSUSE, hv]
  · simp [isSUSE, hv]
  · rw [flush_invalid encode cd w hv]
  · simp [reset, flush, hv]
  · cases hr : getImageId outdatedImg with
    | error err =>
      rw [updateCacheAfterUpdate_error getImageId encode cd outdatedImg updatedImgId err w hr]
    | ok o =>
      simp only [updateCacheAfterUpdate, hr]
      by_cases h1 : arrayIncludeString cd.Outdated o = true <;>
        by_cases h2 : arrayIncludeString cd.Suse updatedImgId = true <;>
        simp [h1, h2, flush, hv]

/-- C6 on an invalid handle that nevertheless lists `1` as a SUSE image, in a
world where the cache file under `/tmp` exists. -/
theorem C6_invalid_pass_through_witness :
    (isSUSE probeNo { tmpHandle ["1"] [] [] with Valid := false } "1" freshWorld).ret
      = probeNo "1" "zypper" ∧
    (isSUSE probeNo { tmpHandle ["1"] [] [] with Valid := false } "1" freshWorld).world.probes
      = freshWorld.probes ++ [("1", "zypper")] ∧
    (isSUSE probeNo { tmpHandle ["1"] [] [] with Valid := false } "1" freshWorld).cd
      = { tmpHandle ["1"] [] [] with Valid := false } ∧
    (isSUSE probeNo { tmpHandle ["1"] [] [] with Valid := false } "1" freshWorld).world.files
      = freshWorld.files ∧
    (flush encodePlain { tmpHandle ["1"] [] [] with Valid := false } freshWorld).world.files
      = freshWorld.files ∧
    (reset encodePlain { tmpHandle ["1"] [] [] with Valid := false } freshWorld).world.files
      = freshWorld.files ∧
    (updateCacheAfterUpdate resolveMyrepo encodePlain
        { tmpHandle ["1"] [] [] with Valid := false } "myrepo:tag" "newid123"
        freshWorld).world.files
      = freshWorld.files :=
  C6_invalid_pass_through probeNo resolveMyrepo encodePlain
    { tmpHandle ["1"] [] [] with Valid := false } "1" "myrepo:tag" "newid123" freshWorld rfl

/-! ## C7: the resolver's error -/

/-- C7: `updateCacheAfterUpdate` returns an error if and only if the
resolver fails on `outdatedImg`; when the resolver fails with `err`, the
returned error is `err` and the record (`Suse`, `Other`, `Outdated`) and
every file are unchanged. -/
theorem C7_error_iff_resolver_fails (getImageId : Resolver) (encode : Encoder)
    (cd : cachedData) (outdatedImg updatedImgId : String) (w : World) :
    ((updateCacheAfterUpdate getImageId encode cd outdatedImg updatedImgId w).ret ≠ none
      ↔ ∃ err, getImageId outdatedImg = .error err) ∧
    ∀ err, getImageId outdatedImg = .error err →
      (updateCacheAfterUpdate getImageId encode cd outdatedImg updatedImgId w).ret = some err ∧
      (updateCacheAfterUpdate getImageId encode cd outdatedImg updatedImgId w).cd = cd ∧
      (updateCacheAfterUpdate getImageId encode cd outdatedImg updatedImgId w).world.files
        = w.files := by
  constructor
  · cases hr : getImageId outdatedImg with
    | error err =>
      rw [updateCacheAfterUpdate_error getImageId encode cd outdatedImg updatedImgId err w hr]
      simp
    | ok o => simp [updateCacheAfterUpdate, hr]
  · intro err hr
    rw [updateCacheAfterUpdate_error getImageId encode cd outdatedImg updatedImgId err w hr]
    exact ⟨rfl, rfl, rfl⟩

/-- C7 at a reference the resolver does not know: the error comes back as
the resolver gave it, and the handle with `Suse = ["1"]`, `Other = ["3"]`
and the files are as before. -/
theorem C7_error_iff_resolver_fails_witness :
    (updateCacheAfterUpdate resolveMyrepo encodePlain (tmpHandle ["1"] ["3"] [])
        "nosuch:tag" "newid123" freshWorld).ret = some "no such image: nosuch:tag" ∧
    (updateCacheAfterUpdate resolveMyrepo encodePlain (tmpHandle ["1"] ["3"] [])
        "nosuch:tag" "newid123" freshWorld).cd = tmpHandle ["1"] ["3"] [] ∧
    (updateCacheAfterUpdate resolveMyrepo encodePlain (tmpHandle ["1"] ["3"] [])
        "nosuch:tag" "newid123" freshWorld).world.files = freshWorld.files :=
  (C7_error_iff_resolver_fails resolveMyrepo encodePlain (tmpHandle ["1"] ["3"] [])
    "nosuch:tag" "newid123" freshWorld).2 "no such image: nosuch:tag" (by rfl)

/-! ## C8: update recording -/

/-- C8: when `outdatedImg` resolves to the id `o`, then on the record
`updateCacheAfterUpdate` leaves, `isImageOutdated(o)` is true and
`idExists(updatedImgId)` is `(true, true)`; `Other` is unchanged. -/
theorem C8_update_recording (getImageId : Resolver) (encode : Encoder) (cd : cachedData)
    (outdatedImg updatedImgId o : String) (w : World)
    (hr : getImageId outdatedImg = .ok o) :
    isImageOutdated (updateCacheAfterUpdate getImageId encode cd outdatedImg updatedImgId w).cd o
      = true ∧
    idExists (updateCacheAfterUpdate getImageId encode cd outdatedImg updatedImgId w).cd
      updatedImgId = (true, true) ∧
    (updateCacheAfterUpdate getImageId encode cd outdatedImg updatedImgId w).cd.Other
      = cd.Other := by
  rw [updateCacheAfterUpdate_cd_ok getImageId encode cd outdatedImg updatedImgId o w hr]
  refine ⟨?_, ?_, rfl⟩
  · by_cases h1 : o ∈ cd.Outdated <;>
      simp [isImageOutdated, arrayIncludeString_eq_decide, h1]
  · by_cases h2 : updatedImgId ∈ cd.Suse <;>
      simp [idExists, arrayIncludeString_eq_decide, h2]

/-- C8 on scenario 3: `myrepo:tag` resolves to `oldid456`, the new image is
`newid123`. -/
theorem C8_update_recording_witness :
    isImageOutdated (updateCacheAfterUpdate resolveMyrepo encodePlain (tmpHandle ["1"] ["3"] [])
        "myrepo:tag" "newid123" freshWorld).cd "oldid456" = true ∧
    idExists (updateCacheAfterUpdate resolveMyrepo encodePlain (tmpHandle ["1"] ["3"] [])
        "myrepo:tag" "newid123" freshWorld).cd "newid123" = (true, true) ∧
    (updateCacheAfterUpdate resolveMyrepo encodePlain (tmpHandle ["1"] ["3"] [])
        "myrepo:tag" "newid123" freshWorld).cd.Other = (tmpHandle ["1"] ["3"] []).Other :=
  C8_update_recording resolveMyrepo encodePlain (tmpHandle ["1"] ["3"] [])
    "myrepo:tag" "newid123" "oldid456" freshWorld (by rfl)

/-! ## C9: update idempotence -/

/-- C9: when `outdatedImg` resolves to `o`, `o` is not in `Outdated` and
`updatedImgId` is not in `Suse`, then after two calls of
`updateCacheAfterUpdate` with the same arguments `o` occurs exactly once in
`Outdated` and `updatedImgId` exactly once in `Suse`, and the second call
changes nothing: it returns no error and leaves the record, the files and
the probe log as the first call left them. -/
theorem C9_update_idempotent (getImageId : Resolver) (encode : Encoder) (cd : cachedData)
    (outdatedImg updatedImgId o : String) (w : World)
    (hr : getImageId outdatedImg = .ok o)
    (hno : o ∉ cd.Outdated) (hns : updatedImgId ∉ cd.Suse) :
    (updateCacheAfterUpdate getImageId encode
        (updateCacheAfterUpdate getImageId encode cd outdatedImg updatedImgId w).cd
        outdatedImg updatedImgId
        (updateCacheAfterUpdate getImageId encode cd outdatedImg updatedImgId w).world
      ).cd.Outdated.count o = 1 ∧
    (updateCacheAfterUpdate getImageId encode
        (updateCacheAfterUpdate getImageId encode cd outdatedImg updatedImgId w).cd
        outdatedImg updatedImgId
        (updateCacheAfterUpdate getImageId encode cd outdatedImg updatedImgId w).world
      ).cd.Suse.count updatedImgId = 1 ∧
    (updateCacheAfterUpdate getImageId encode
        (updateCacheAfterUpdate getImageId encode cd outdatedImg updatedImgId w).cd
        outdatedImg updatedImgId
        (updateCacheAfterUpdate getImageId encode cd outdatedImg updatedImgId w).world
      ).ret = none ∧
    (updateCacheAfterUpdate getImageId encode
        (updateCacheAfterUpdate getImageId encode cd outdatedImg updatedImgId w).cd
        outdatedImg updatedImgId
        (updateCacheAfterUpdate getImageId encode cd outdatedImg updatedImgId w).world
      ).cd = (updateCacheAfterUpdate getImageId encode cd outdatedImg updatedImgId w).cd ∧
    (updateCacheAfterUpdate getImageId encode
        (updateCacheAfterUpdate getImageId encode cd outdatedImg updatedImgId w).cd
        outdatedImg updatedImgId
        (updateCacheAfterUpdate getImageId encode cd outdatedImg updatedImgId w).world
      ).world.files
        = (updateCacheAfterUpdate getImageId encode cd outdatedImg updatedImgId w).world.files ∧
    (updateCacheAfterUpdate getImageId encode
        (updateCacheAfterUpdate getImageId encode cd outdatedImg updatedImgId w).cd
        outdatedImg updatedImgId
        (updateCacheAfterUpdate getImageId encode cd outdatedImg updatedImgId w).world
      ).world.probes
        = (updateCacheAfterUpdate getImageId encode cd outdatedImg updatedImgId w).world.probes := by
  have h1 := updateCacheAfterUpdate_cd_ok getImageId encode cd outdatedImg updatedImgId o w hr
  simp only [hno, hns, if_false] at h1
  generalize updateCacheAfterUpdate getImageId encode cd outdatedImg updatedImgId w = r1 at h1 ⊢
  have hmo : arrayIncludeString r1.cd.Outdated o = true := by
    rw [h1]; simp [arrayIncludeString_eq_decide]
  have hms : arrayIncludeString r1.cd.Suse updatedImgId = true := by
    rw [h1]; simp [arrayIncludeString_eq_decide]
  have h2 : updateCacheAfterUpdate getImageId encode r1.cd outdatedImg updatedImgId r1.world
      = { ret := none, cd := r1.cd, world := r1.world } := by
    simp [updateCacheAfterUpdate, hr, hmo, hms]
  rw [h2]
  refine ⟨?_, ?_, rfl, rfl, rfl, rfl⟩
  · rw [h1]
    simp [List.count_append, List.count_eq_zero_of_not_mem hno]
  · rw [h1]
    simp [List.count_append, List.count_eq_zero_of_not_mem hns]

/-- C9 on scenario 3, twice: after the second call the record is the one the
first call left, with `oldid456` once in `Outdated` and `newid123` once in
`Suse`. -/
theorem C9_update_idempotent_witness :
    (updateCacheAfterUpdate resolveMyrepo encodePlain
        (updateCacheAfterUpdate resolveMyrepo encodePlain (tmpHandle ["1"] ["3"] [])
          "myrepo:tag" "newid123" freshWorld).cd
        "myrepo:tag" "newid123"
        (updateCacheAfterUpdate resolveMyrepo encodePlain (tmpHandle ["1"] ["3"] [])
          "myrepo:tag" "newid123" freshWorld).world
      ).cd.Outdated.count "oldid456" = 1 ∧
    (updateCacheAfterUpdate resolveMyrepo encodePlain
        (updateCacheAfterUpdate resolveMyrepo encodePlain (tmpHandle ["1"] ["3"] [])
          "myrepo:tag" "newid123" freshWorld).cd
        "myrepo:tag" "newid123"
        (updateCacheAfterUpdate resolveMyrepo encodePlain (tmpHandle ["1"] ["3"] [])
          "myrepo:tag" "newid123" freshWorld).world
      ).cd.Suse.count "newid123" = 1 ∧
    (updateCacheAfterUpdate resolveMyrepo encodePlain
        (updateCacheAfterUpdate resolveMyrepo encodePlain (tmpHandle ["1"] ["3"] [])
          "myrepo:tag" "newid123" freshWorld).cd
        "myrepo:tag" "newid123"
        (updateCacheAfterUpdate resolveMyrepo encodePlain (tmpHandle ["1"] ["3"] [])
          "myrepo:tag" "newid123" freshWorld).world
      ).cd = (updateCacheAfterUpdate resolveMyrepo encodePlain (tmpHandle ["1"] ["3"] [])
          "myrepo:tag" "newid123" freshWorld).cd :=
  have key := C9_update_idempotent resolveMyrepo encodePlain (tmpHandle ["1"] ["3"] [])
    "myrepo:tag" "newid123" "oldid456" freshWorld (by rfl)
    (by simp [tmpHandle]) (by simp [tmpHandle])
  ⟨key.1, key.2.1, key.2.2.2.1⟩

/-! ## C10: the scope of reset -/

/-- C10: after `reset()`, `Suse` and `Other` are empty, so `idExists(id)` is
`(false, false)` for every id; `Outdated` is unchanged, so
`isImageOutdated(id)` answers as before the reset for every id. -/
theorem C10_reset_scope (encode : Encoder) (cd : cachedData) (w : World) :
    (reset encode cd w).cd.Suse = [] ∧
    (reset encode cd w).cd.Other = [] ∧
    (∀ id, idExists (reset encode cd w).cd id = (false, false)) ∧
    (reset encode cd w).cd.Outdated = cd.Outdated ∧
    (∀ id, isImageOutdated (reset encode cd w).cd id = isImageOutdated cd id) := by
  have hcd : (reset encode cd w).cd = { cd with Suse := [], Other := [] } := by
    unfold reset
    rw [flush_cd]
  rw [hcd]
  refine ⟨rfl, rfl, ?_, rfl, ?_⟩
  · intro id
    simp [idExists, arrayIncludeString]
  · intro id
    rfl

/-! ## The scenarios of the specification, evaluated -/

/-- Scenario 1: cold cache, id `abc`, the probe answers true. -/
theorem scenario1_cold_cache :
    (isSUSE probeYes (tmpHandle [] [] []) "abc" freshWorld).ret = true ∧
    idExists (isSUSE probeYes (tmpHandle [] [] []) "abc" freshWorld).cd "abc" = (true, true) ∧
    (isSUSE probeYes (tmpHandle [] [] []) "abc" freshWorld).world.probes
      = [("abc", "zypper")] := by
  decide

/-- Scenario 2: warm cache with `Suse = ["1"]`, `Other = ["3"]`; no probe runs. -/
theorem scenario2_warm_cache :
    (isSUSE probeNo (tmpHandle ["1"] ["3"] []) "1" freshWorld).ret = true ∧
    (isSUSE probeNo (tmpHandle ["1"] ["3"] []) "1" freshWorld).world.probes = [] := by
  decide

/-- Scenario 3: `myrepo:tag` resolves to `oldid456`; `Outdated` gains
`oldid456`, `Suse` gains `newid123`, and the file holds the final record. -/
theorem scenario3_update :
    (updateCacheAfterUpdate resolveMyrepo encodePlain (tmpHandle [] [] [])
        "myrepo:tag" "newid123" freshWorld).cd = tmpHandle ["newid123"] [] ["oldid456"] ∧
    (updateCacheAfterUpdate resolveMyrepo encodePlain (tmpHandle [] [] [])
        "myrepo:tag" "newid123" freshWorld).world.files "/tmp/docker-zypper.json"
      = some "\x7b\"suse\":[\"newid123\"],\"other\":[],\"outdated\":[\"oldid456\"]\x7d\n" := by
  decide

/-! ## Facts about `cachePath` -/

theorem openOrCreate_content (host : Host) (w w1 : World) (name c : String) (f : OpenFile)
    (h : openOrCreate host w name = some (f, w1)) (hc : w.files f.name = some c) :
    f.name = name ∧ f.content = c := by
  unfold openOrCreate at h
  cases hw : w.files name with
  | some c0 =>
    simp only [hw, Option.some.injEq, Prod.mk.injEq] at h
    obtain ⟨hf, -⟩ := h
    subst hf
    simp only at hc
    rw [hw] at hc
    exact ⟨rfl, Option.some.inj hc⟩
  | none =>
    simp only [hw] at h
    split at h
    · simp only [Option.some.injEq, Prod.mk.injEq] at h
      obtain ⟨hf, -⟩ := h
      subst hf
      simp only at hc
      rw [hw] at hc
      cases hc
    · cases h

theorem cachePathDirs_content (host : Host) (dirs opened : List String) (w : World)
    (f : OpenFile) (c : String)
    (h : (cachePathDirs host dirs opened w).file = some f) (hc : w.files f.name = some c) :
    f.content = c := by
  induction dirs generalizing opened with
  | nil => simp [cachePathDirs] at h
  | cons d dirs ih =>
    unfold cachePathDirs at h
    dsimp only at h
    cases ho : openOrCreate host w (host.join d cacheName) with
    | none =>
      rw [ho] at h
      exact ih _ h
    | some fw =>
      obtain ⟨f1, w1⟩ := fw
      rw [ho] at h
      simp only [Option.some.injEq] at h
      subst h
      exact (openOrCreate_content host w w1 _ c f1 ho hc).2

theorem cachePathDirs_none_world (host : Host) (dirs opened : List String) (w : World)
    (h : (cachePathDirs host dirs opened w).file = none) :
    (cachePathDirs host dirs opened w).world = w := by
  induction dirs generalizing opened with
  | nil => rfl
  | cons d dirs ih =>
    unfold cachePathDirs at h ⊢
    dsimp only at h ⊢
    cases ho : openOrCreate host w (host.join d cacheName) with
    | none =>
      simp only [ho] at h ⊢
      exact ih _ h
    | some fw =>
      simp [ho] at h

theorem cachePathCandidates_content (host : Host) (candidates opened : List String) (w : World)
    (f : OpenFile) (c : String)
    (h : (cachePathCandidates host candidates opened w).file = some f)
    (hc : w.files f.name = some c) :
    f.content = c := by
  induction candidates generalizing opened with
  | nil => simp [cachePathCandidates] at h
  | cons dir candidates ih =>
    unfold cachePathCandidates at h
    dsimp only at h
    cases hr : (cachePathDirs host (stringsSplit dir ':') opened w).file with
    | some f1 =>
      rw [hr] at h
      dsimp only at h
      rw [hr] at h
      cases h
      exact cachePathDirs_content host _ opened w f c hr hc
    | none =>
      rw [hr] at h
      dsimp only at h
      rw [cachePathDirs_none_world host _ opened w hr] at h
      exact ih _ h

/-- The file `cachePath` returns holds what the file of that name held. -/
theorem cachePath_content (host : Host) (w : World) (f : OpenFile) (c : String)
    (h : (cachePath host w).file = some f) (hc : w.files f.name = some c) :
    f.content = c :=
  cachePathCandidates_content host _ [] w f c h hc

/-! ## The round trip of the JSON encoder and decoder -/

theorem hexValue_hexDigit (d : Nat) (h : d < 16) : hexValue (hexDigit d) = some d := by
  interval_cases d <;> decide

theorem dropLiteral_append (lit rest : List Char) : dropLiteral lit (lit ++ rest) = some rest := by
  induction lit with
  | nil => cases rest <;> rfl
  | cons l lit ih => simp [dropLiteral, ih]

/-- The decoder reads an escape of the encoder as the character escaped. -/
theorem readEscape_escapeBody (c : Char) (body tail : List Char)
    (h : escapeBody c = some body) : readEscape (body ++ tail) = some (c, tail) := by
  unfold escapeBody at h
  split_ifs at h with h1 h2 h3 h4 h5 h6 h7 h8
  · cases h
    rcases h1 with rfl | rfl <;> rfl
  · cases h; subst h2; rfl
  · cases h; subst h3; rfl
  · cases h; subst h4; rfl
  · cases h; subst h5; rfl
  · cases h; subst h6; rfl
  · cases h
    rcases h7 with hlt | rfl | rfl | rfl
    · have hhi : c.toNat / 16 < 16 := by omega
      have hlo : c.toNat % 16 < 16 := by omega
      have h0 : hexValue '0' = some 0 := by decide
      have hval : c.toNat / 16 * 16 + c.toNat % 16 = c.toNat := by omega
      have hns : ¬ (55296 ≤ c.toNat ∧ c.toNat < 57344) := by omega
      simp [readEscape, hex4, h0, hexValue_hexDigit _ hhi, hexValue_hexDigit _ hlo, hval, hns,
        Char.ofNat_toNat]
    · rfl
    · rfl
    · rfl
  · cases h
    rcases h8 with rfl | rfl <;> rfl

/-- A character the encoder copies is one the decoder reads as itself. -/
theorem escapeBody_none (c : Char) (h : escapeBody c = none) :
    c ≠ quoteChar ∧ c ≠ backslashChar ∧ ¬ c.toNat < 32 := by
  refine ⟨?_, ?_, ?_⟩
  · intro e
    simp [escapeBody, e] at h
  · intro e
    simp [escapeBody, e] at h
  · intro e
    unfold escapeBody at h
    split_ifs at h with h1 h2 h3 h4 h5 h6 h7 h8
    exact h7 (Or.inl e)

theorem readJsonString_escapeChar (c : Char) (fuel : Nat) (tail : List Char) :
    readJsonString (fuel + 1) (escapeChar c ++ tail)
      = (readJsonString fuel tail).map (fun p => (c :: p.1, p.2)) := by
  unfold escapeChar
  cases hb : escapeBody c with
  | some body =>
    have hq : backslashChar ≠ quoteChar := by decide
    simp [readJsonString, hq, readEscape_escapeBody c body tail hb]
  | none =>
    obtain ⟨h1, h2, h3⟩ := escapeBody_none c hb
    simp [readJsonString, h1, h2, h3]

theorem escapeChars_length (cs : List Char) : cs.length ≤ (escapeChars cs).length := by
  induction cs with
  | nil => simp [escapeChars]
  | cons c cs ih =>
    have h1 : 1 ≤ (escapeChar c).length := by
      unfold escapeChar
      cases escapeBody c <;> simp
    simp only [escapeChars, List.length_cons, List.length_append]
    omega

/-- The decoder reads a text the encoder wrote as that text. -/
theorem readJsonString_escapeChars (cs : List Char) (fuel : Nat) (rest : List Char)
    (h : cs.length < fuel) :
    readJsonString fuel (escapeChars cs ++ quoteChar :: rest) = some (cs, rest) := by
  induction cs generalizing fuel with
  | nil =>
    cases fuel with
    | zero => simp at h
    | succ fuel => simp [escapeChars, readJsonString]
  | cons c cs ih =>
    cases fuel with
    | zero => simp at h
    | succ fuel =>
      have h1 : cs.length < fuel := by simpa using h
      simp only [escapeChars, List.append_assoc]
      rw [readJsonString_escapeChar, ih fuel h1]
      rfl

/-- What follows the opening quote of a text the encoder wrote, read back. -/
theorem readJsonString_text (i : String) (rest : List Char) :
    readJsonString ((escapeChars i.data ++ quoteChar :: rest).length + 1)
        (escapeChars i.data ++ quoteChar :: rest)
      = some (i.data, rest) := by
  apply readJsonString_escapeChars
  have h := escapeChars_length i.data
  simp only [List.length_append, List.length_cons]
  omega

theorem jsonMoreIds_length (ids : List String) : ids.length < (jsonMoreIds ids).length := by
  induction ids with
  | nil => simp [jsonMoreIds]
  | cons i ids ih =>
    simp only [jsonMoreIds, List.length_cons, List.length_append]
    omega

theorem readJsonMoreIds_jsonMoreIds (ids : List String) (fuel : Nat) (rest : List Char)
    (h : ids.length < fuel) :
    readJsonMoreIds fuel (jsonMoreIds ids ++ rest) = some (ids, rest) := by
  induction ids generalizing fuel with
  | nil =>
    cases fuel with
    | zero => simp at h
    | succ fuel =>
      have h1 : dropLiteral "]".data (jsonMoreIds [] ++ rest) = some rest :=
        dropLiteral_append "]".data rest
      simp [readJsonMoreIds, h1]
  | cons i ids ih =>
    cases fuel with
    | zero => simp at h
    | succ fuel =>
      have hlen : ids.length < fuel := by simpa using h
      have hshape : jsonMoreIds (i :: ids) ++ rest
          = [',', quoteChar] ++ (escapeChars i.data ++ quoteChar :: (jsonMoreIds ids ++ rest)) := by
        simp [jsonMoreIds, jsonStringChars]
      have h1 : dropLiteral "]".data (jsonMoreIds (i :: ids) ++ rest) = none := by
        rw [hshape]
        rfl
      have h2 : dropLiteral [',', quoteChar] (jsonMoreIds (i :: ids) ++ rest)
          = some (escapeChars i.data ++ quoteChar :: (jsonMoreIds ids ++ rest)) := by
        rw [hshape]
        exact dropLiteral_append _ _
      unfold readJsonMoreIds
      simp only [h1, h2, readJsonString_text, ih fuel hlen]

/-- The decoder reads an array the encoder wrote as the list of its ids. -/
theorem readJsonIds_jsonIds (isNil : Bool) (ids : List String) (rest : List Char) :
    readJsonIds (jsonIds isNil ids ++ rest) = some (ids, rest) := by
  cases ids with
  | nil =>
    cases isNil
    · have h1 : dropLiteral "null".data (jsonIds false [] ++ rest) = none := rfl
      have h2 : dropLiteral "[]".data (jsonIds false [] ++ rest) = some rest :=
        dropLiteral_append "[]".data rest
      simp [readJsonIds, h1, h2]
    · have h1 : dropLiteral "null".data (jsonIds true [] ++ rest) = some rest :=
        dropLiteral_append "null".data rest
      simp [readJsonIds, h1]
  | cons i ids =>
    have hshape : jsonIds isNil (i :: ids) ++ rest
        = ['[', quoteChar] ++ (escapeChars i.data ++ quoteChar :: (jsonMoreIds ids ++ rest)) := by
      simp [jsonIds, jsonStringChars]
    have h1 : dropLiteral "null".data (jsonIds isNil (i :: ids) ++ rest) = none := by
      rw [hshape]
      rfl
    have h2 : dropLiteral "[]".data (jsonIds isNil (i :: ids) ++ rest) = none := by
      rw [hshape]
      rfl
    have h3 : dropLiteral ['[', quoteChar] (jsonIds isNil (i :: ids) ++ rest)
        = some (escapeChars i.data ++ quoteChar :: (jsonMoreIds ids ++ rest)) := by
      rw [hshape]
      exact dropLiteral_append _ _
    have h4 : readJsonMoreIds ((jsonMoreIds ids ++ rest).length + 1) (jsonMoreIds ids ++ rest)
        = some (ids, rest) := by
      apply readJsonMoreIds_jsonMoreIds
      have := jsonMoreIds_length ids
      simp only [List.length_append]
      omega
    unfold readJsonIds
    simp only [h1, h2, h3, readJsonString_text, h4]

/-- Decoding the serialization of a record gives the record back: the three
lists, id by id, whatever characters the ids hold and whichever of the empty
lists stand for nil slices. -/
theorem jsonDecode_jsonEncode (nils : NilSlices) (suse other outdated : List String) :
    jsonDecode (jsonEncode nils suse other outdated) = .record suse other outdated := by
  have hrec : readJsonRecord (jsonEncode nils suse other outdated).data
      = some (suse, other, outdated) := by
    unfold readJsonRecord jsonEncode
    simp only [dropLiteral_append, readJsonIds_jsonIds]
    rfl
  have hhead : (jsonEncode nils suse other outdated).data
      = Char.ofNat 123 :: ("\"suse\":".data ++ (jsonIds nils.suse suse
          ++ (",\"other\":".data ++ (jsonIds nils.other other
          ++ (",\"outdated\":".data ++ (jsonIds nils.outdated outdated ++ "\x7d\n".data)))))) :=
    rfl
  have hskip : skipSpace (jsonEncode nils suse other outdated).data
      = (jsonEncode nils suse other outdated).data := by
    rw [hhead]
    rfl
  have hnull : dropLiteral "null".data (jsonEncode nils suse other outdated).data = none := by
    rw [hhead]
    rfl
  unfold jsonDecode
  simp only [hskip, hnull, hrec]

/-! ## C11: persistence round trip -/

/-- After `flush()` on a valid handle whose file can be opened, a
`getCacheFile()` that resolves to the same path reads what the flush wrote:
if that decodes to the lists `s`, `o`, `d`, the handle returned is valid,
bound to the path, and holds these lists. -/
theorem getCacheFile_after_flush (host : Host) (encode : Encoder) (decode : Decoder)
    (cd : cachedData) (w : World) (c : String) (s o d : List String)
    (hv : cd.Valid = true) (hf : w.files cd.Path = some c)
    (hloc : (cachePath host (flush encode cd w).world).file.map (fun f => f.name)
      = some cd.Path)
    (hdec : decode (encode cd.Suse cd.Other cd.Outdated) = .record s o d) :
    (getCacheFile host decode (flush encode cd w).world).handle
      = some { Path := cd.Path, Suse := s, Other := o, Outdated := d, Valid := true } := by
  have hw := flush_written encode cd w c hv hf
  cases hfile : (cachePath host (flush encode cd w).world).file with
  | none => simp [hfile] at hloc
  | some f =>
    have hname : f.name = cd.Path := by simpa [hfile] using hloc
    have hcontent : f.content = encode cd.Suse cd.Other cd.Outdated :=
      cachePath_content host _ f _ hfile (by rw [hname]; exact hw)
    simp [getCacheFile, hfile, hcontent, hdec, hname]

/-- C11: with the encoder and the decoder of `encoding/json`, on a valid
handle whose backing file can be opened, `flush()` followed by a
`getCacheFile()` that resolves to the same location returns the flushed
handle: a valid handle bound to that location whose `Suse`, `Other` and
`Outdated` hold exactly the ids of the flushed handle (in the same order);
and decoding the serialization of any record gives back its three lists. -/
theorem C11_round_trip (host : Host) (nils : NilSlices) (cd : cachedData) (w : World)
    (c : String)
    (hv : cd.Valid = true) (hf : w.files cd.Path = some c)
    (hloc : (cachePath host (flush (jsonEncode nils) cd w).world).file.map (fun f => f.name)
      = some cd.Path) :
    (getCacheFile host jsonDecode (flush (jsonEncode nils) cd w).world).handle = some cd ∧
    (∃ h : cachedData,
      (getCacheFile host jsonDecode (flush (jsonEncode nils) cd w).world).handle = some h ∧
      h.Valid = true ∧ h.Path = cd.Path ∧
      (∀ x, x ∈ h.Suse ↔ x ∈ cd.Suse) ∧
      (∀ x, x ∈ h.Other ↔ x ∈ cd.Other) ∧
      (∀ x, x ∈ h.Outdated ↔ x ∈ cd.Outdated)) ∧
    (∀ suse other outdated : List String,
      jsonDecode (jsonEncode nils suse other outdated) = .record suse other outdated) := by
  have key : (getCacheFile host jsonDecode (flush (jsonEncode nils) cd w).world).handle
      = some cd := by
    rw [getCacheFile_after_flush host (jsonEncode nils) jsonDecode cd w c
      cd.Suse cd.Other cd.Outdated hv hf hloc (jsonDecode_jsonEncode nils _ _ _)]
    cases cd
    simp only at hv
    simp [hv]
  exact ⟨key, ⟨cd, key, hv, rfl, fun _ => Iff.rfl, fun _ => Iff.rfl, fun _ => Iff.rfl⟩,
    jsonDecode_jsonEncode nils⟩

/-- C11 on a handle whose ids need escaping (`a"b`, `<3>`, a backslash and a
newline) next to the `1234` of `TestImagesForce`: flushed to the cache file
under `/tmp` and read back, it is the same handle. -/
theorem C11_round_trip_witness :
    (getCacheFile hostReadOnly jsonDecode
      (flush (jsonEncode noneNil) (tmpHandle ["1234", "a\"b"] ["<3>"] ["x\\y\n"])
        freshWorld).world).handle
      = some (tmpHandle ["1234", "a\"b"] ["<3>"] ["x\\y\n"]) ∧
    (flush (jsonEncode noneNil) (tmpHandle ["1234", "a\"b"] ["<3>"] ["x\\y\n"])
        freshWorld).world.files "/tmp/docker-zypper.json"
      = some "\x7b\"suse\":[\"1234\",\"a\\\"b\"],\"other\":[\"\\u003c3\\u003e\"],\"outdated\":[\"x\\\\y\\n\"]\x7d\n" :=
  ⟨(C11_round_trip hostReadOnly noneNil (tmpHandle ["1234", "a\"b"] ["<3>"] ["x\\y\n"])
      freshWorld "" rfl (by decide) (by decide)).1,
   by decide⟩

/-- The encoder on the records of the tests and of `getCacheFile`: the nil
slices of a fresh handle are written `null`, the emptied ones of `reset` as
`[]`; the decoder reads both as empty lists, and reads escapes the encoder
does not write (a surrogate pair, an escaped slash). -/
theorem json_examples :
    jsonEncode allNil [] [] []
      = "\x7b\"suse\":null,\"other\":null,\"outdated\":null\x7d\n" ∧
    jsonEncode noneNil ["1"] ["3"] []
      = "\x7b\"suse\":[\"1\"],\"other\":[\"3\"],\"outdated\":[]\x7d\n" ∧
    jsonDecode "\x7b\"suse\":null,\"other\":null,\"outdated\":null\x7d\n" = .record [] [] [] ∧
    jsonDecode "\x7b\"suse\":[\"\\ud83d\\ude00\",\"\\u00e9\\/\"],\"other\":[],\"outdated\":[]\x7d"
      = .record ["😀", "é/"] [] [] ∧
    jsonDecode "null" = .null ∧
    jsonDecode "" = .failure "cannot decode the cache file" [] [] [] := by
  refine ⟨by decide, by decide, by decide, by decide, by decide, by decide⟩

/-! ## C12: flush -/

/-- C12: `flush()` leaves the record as it is. On a valid handle whose file
can be opened, whatever the file held, the file then holds exactly the
serialization of the record and every other file is as before. On an
invalid handle, or when the file cannot be opened, every file is as before.
`flush` has no result: no error reaches the caller. -/
theorem C12_flush (encode : Encoder) (cd : cachedData) (w : World) :
    (flush encode cd w).cd = cd ∧
    (∀ c, cd.Valid = true → w.files cd.Path = some c →
      (flush encode cd w).world.files cd.Path = some (encode cd.Suse cd.Other cd.Outdated) ∧
      ∀ p, p ≠ cd.Path → (flush encode cd w).world.files p = w.files p) ∧
    ((cd.Valid = false ∨ w.files cd.Path = none) → (flush encode cd w).world.files = w.files) ∧
    (flush encode cd w).ret = () := by
  refine ⟨flush_cd encode cd w, ?_, ?_, rfl⟩
  · intro c hv hf
    refine ⟨flush_written encode cd w c hv hf, ?_⟩
    intro p hp
    simp [flush, hv, hf, hp]
  · rintro (hv | hf)
    · rw [flush_invalid encode cd w hv]
    · cases hv : cd.Valid
      · rw [flush_invalid encode cd w hv]
      · simp [flush, hv, hf]

/-- C12 on a file that holds corrupt content: the flush of the empty record
replaces it (scenario 5); on an invalid handle the file keeps it. -/
theorem C12_flush_witness :
    (flush encodePlain (tmpHandle [] [] []) { files := tmpOnly "corrupt", probes := [] }
      ).world.files (tmpHandle [] [] []).Path
      = some (encodePlain [] [] []) ∧
    (flush encodePlain { tmpHandle [] [] [] with Valid := false }
      { files := tmpOnly "corrupt", probes := [] }).world.files
      = tmpOnly "corrupt" :=
  ⟨((C12_flush encodePlain (tmpHandle [] [] [])
      { files := tmpOnly "corrupt", probes := [] }).2.1 "corrupt" rfl (by decide)).1,
   (C12_flush encodePlain { tmpHandle [] [] [] with Valid := false }
      { files := tmpOnly "corrupt", probes := [] }).2.2.1 (Or.inl rfl)⟩

/-! ## C13: validity of the handle `getCacheFile` returns -/

/-- Without a backing file, `getCacheFile` returns the invalid handle:
`Valid = false`, empty lists, empty `Path`. -/
theorem getCacheFile_no_file (host : Host) (decode : Decoder) (w : World)
    (h : (cachePath host w).file = none) :
    (getCacheFile host decode w).handle = some invalidHandle := by
  simp [getCacheFile, h, invalidHandle]

/-- With a backing file whose content does not decode to the literal `null`,
`getCacheFile` returns a valid handle bound to the file's name. -/
theorem getCacheFile_valid_unless_null (host : Host) (decode : Decoder) (w : World)
    (f : OpenFile) (h : (cachePath host w).file = some f)
    (hn : decode f.content ≠ .null) :
    ∃ cd, (getCacheFile host decode w).handle = some cd ∧ cd.Valid = true ∧
      cd.Path = f.name := by
  cases hd : decode f.content with
  | null => exact absurd hd hn
  | failure err s o d =>
    exact ⟨{ Path := f.name, Suse := [], Other := [], Outdated := [], Valid := true },
      by simp [getCacheFile, h, hd], rfl, rfl⟩
  | record s o d =>
    exact ⟨{ Path := f.name, Suse := s, Other := o, Outdated := d, Valid := true },
      by simp [getCacheFile, h, hd], rfl, rfl⟩

/-- C13, the code at the failing input: the cache file under `/tmp` exists
and holds the JSON literal `null`. `cachePath` secures it, yet `getCacheFile`
returns `nil`: no handle, hence none with `Valid = true` and `Path` bound to
the file. -/
theorem C13_null_content_returns_nil :
    (cachePath hostReadOnly { files := tmpOnly "null", probes := [] }).file
      = some { name := "/tmp/docker-zypper.json", content := "null" } ∧
    decodePlain "null" = .null ∧
    (getCacheFile hostReadOnly decodePlain { files := tmpOnly "null", probes := [] }).handle
      = none := by
  refine ⟨by decide, by decide, by decide⟩

/-! ## C14: content that does not decode as a record -/

/-- When `cachePath` secures the file `f` and `Decode` returns an error on
its content, `getCacheFile` returns the handle with `Valid = true`, `Path`
the name of `f` and empty `Suse`, `Other` and `Outdated`, whatever the
decoder had stored before the error. -/
theorem getCacheFile_decode_error (host : Host) (decode : Decoder) (w : World) (f : OpenFile)
    (err : GoError) (s o d : List String)
    (h : (cachePath host w).file = some f)
    (hd : decode f.content = .failure err s o d) :
    (getCacheFile host decode w).handle
      = some { Path := f.name, Suse := [], Other := [], Outdated := [], Valid := true } := by
  simp [getCacheFile, h, hd]

/-- The empty file `cachePath` has just created under `/tmp`: `Decode`
returns an error and the handle is valid and empty. -/
theorem getCacheFile_decode_error_empty_file :
    (getCacheFile hostTmpCreatable decodePlain emptyWorld).handle
      = some { Path := "/tmp/docker-zypper.json", Suse := [], Other := [], Outdated := [],
               Valid := true } :=
  getCacheFile_decode_error hostTmpCreatable decodePlain emptyWorld
    { name := "/tmp/docker-zypper.json", content := "" }
    "cannot decode the cache file" [] [] [] (by decide) (by decide)

/-- C14, the code at the failing input: the cache file under `/tmp` holds
`nullx`, which is not a record and not even JSON. `cachePath` secures the
file; `Decode` reads the literal `null` that the content starts with, sets
`cd` to `nil` and returns no error; `getCacheFile` returns `nil` where the
valid, empty handle bound to the file was to be returned. -/
theorem C14_corrupt_content_returns_nil :
    (cachePath hostReadOnly { files := tmpOnly "nullx", probes := [] }).file
      = some { name := "/tmp/docker-zypper.json", content := "nullx" } ∧
    decodePlain "nullx" = .null ∧
    (getCacheFile hostReadOnly decodePlain { files := tmpOnly "nullx", probes := [] }).handle
      = none ∧
    (getCacheFile hostReadOnly decodePlain { files := tmpOnly "nullx", probes := [] }).handle
      ≠ some { Path := "/tmp/docker-zypper.json", Suse := [], Other := [], Outdated := [],
               Valid := true } ∧
    jsonDecode "nullx" = .null ∧
    (getCacheFile hostReadOnly jsonDecode { files := tmpOnly "nullx", probes := [] }).handle
      = none := by
  refine ⟨by decide, by decide, by decide, by decide, by decide, by decide⟩

/-- Scenario 5: corrupt content gives a valid, empty handle bound to the
file, and a flush of that handle replaces the content by an empty record. -/
theorem scenario5_corrupt_file :
    (getCacheFile hostReadOnly decodePlain
        { files := tmpOnly "\x7b\"suse\":[\"1\"", probes := [] }).handle
      = some (tmpHandle [] [] []) ∧
    (flush encodePlain (tmpHandle [] [] [])
        { files := tmpOnly "\x7b\"suse\":[\"1\"", probes := [] }).world.files
        "/tmp/docker-zypper.json"
      = some "\x7b\"suse\":[],\"other\":[],\"outdated\":[]\x7d\n" := by
  refine ⟨by decide, by decide⟩

/-- Scenario 4: no location can be secured; the handle is invalid and
`isSUSE` probes on each call, leaving every file alone. -/
theorem scenario4_no_location :
    (getCacheFile hostReadOnly decodePlain emptyWorld).handle = some invalidHandle ∧
    (isSUSE probeYes invalidHandle "x" emptyWorld).ret = true ∧
    (isSUSE probeYes (isSUSE probeYes invalidHandle "x" emptyWorld).cd "x"
      (isSUSE probeYes invalidHandle "x" emptyWorld).world).world.probes
      = [("x", "zypper"), ("x", "zypper")] := by
  refine ⟨by decide, by decide, by decide⟩

/-! ## C15: the order of the candidates -/

theorem find_append_of_none (p : String → Bool) (l1 l2 : List String)
    (h : l1.find? p = none) : (l1 ++ l2).find? p = l2.find? p := by
  induction l1 with
  | nil => rfl
  | cons a l1 ih =>
    cases hp : p a
    · simp only [List.find?, hp] at h
      simp only [List.cons_append, List.find?, hp]
      exact ih h
    · simp [List.find?, hp] at h

theorem find_append_of_some (p : String → Bool) (l1 l2 : List String) (x : String)
    (h : l1.find? p = some x) : (l1 ++ l2).find? p = some x := by
  induction l1 with
  | nil => simp at h
  | cons a l1 ih =>
    cases hp : p a
    · simp only [List.find?, hp] at h
      simp only [List.cons_append, List.find?, hp]
      exact ih h
    · simp only [List.find?, hp] at h
      simp only [List.cons_append, List.find?, hp]
      exact h

theorem takeWhile_append_of_none (p : String → Bool) (l1 l2 : List String)
    (h : l1.find? p = none) :
    (l1 ++ l2).takeWhile (fun n => !p n) = l1 ++ l2.takeWhile (fun n => !p n) := by
  induction l1 with
  | nil => rfl
  | cons a l1 ih =>
    cases hp : p a
    · simp only [List.find?, hp] at h
      simp only [List.cons_append, List.takeWhile, hp, Bool.not_false]
      exact congrArg (List.cons a) (ih h)
    · simp [List.find?, hp] at h

theorem takeWhile_append_of_some (p : String → Bool) (l1 l2 : List String) (x : String)
    (h : l1.find? p = some x) :
    (l1 ++ l2).takeWhile (fun n => !p n) = l1.takeWhile (fun n => !p n) := by
  induction l1 with
  | nil => simp at h
  | cons a l1 ih =>
    cases hp : p a
    · simp only [List.find?, hp] at h
      simp only [List.cons_append, List.takeWhile, hp, Bool.not_false]
      exact congrArg (List.cons a) (ih h)
    · simp only [List.cons_append, List.takeWhile, hp, Bool.not_true]

theorem takeWhile_of_none (p : String → Bool) (l : List String)
    (h : l.find? p = none) : l.takeWhile (fun n => !p n) = l := by
  have := takeWhile_append_of_none p l [] h
  simpa using this

theorem openOrCreate_eq_none_iff (host : Host) (w : World) (name : String) :
    openOrCreate host w name = none ↔ opens host w name = false := by
  unfold openOrCreate opens
  cases hw : w.files name with
  | some c => simp
  | none => cases hc : host.creatable name <;> simp

theorem openOrCreate_name (host : Host) (w w1 : World) (name : String) (f : OpenFile)
    (h : openOrCreate host w name = some (f, w1)) :
    f.name = name ∧ opens host w name = true := by
  constructor
  · unfold openOrCreate at h
    cases hw : w.files name with
    | some c =>
      simp only [hw, Option.some.injEq, Prod.mk.injEq] at h
      rw [← h.1]
    | none =>
      simp only [hw] at h
      split at h
      · simp only [Option.some.injEq, Prod.mk.injEq] at h
        rw [← h.1]
      · cases h
  · cases ho : opens host w name
    · rw [(openOrCreate_eq_none_iff host w name).2 ho] at h
      cases h
    · rfl

/-- The inner loop returns the first name that opens, having tried the names
before it and that one. -/
theorem cachePathDirs_order (host : Host) (dirs opened : List String) (w : World) :
    (cachePathDirs host dirs opened w).file.map (fun f => f.name)
      = (dirs.map (fun d => host.join d cacheName)).find? (opens host w) ∧
    (cachePathDirs host dirs opened w).opened
      = opened ++ ((dirs.map (fun d => host.join d cacheName)).takeWhile
            (fun n => !opens host w n)
          ++ ((dirs.map (fun d => host.join d cacheName)).find? (opens host w)).toList) := by
  induction dirs generalizing opened with
  | nil => simp [cachePathDirs]
  | cons d dirs ih =>
    unfold cachePathDirs
    dsimp only
    cases ho : openOrCreate host w (host.join d cacheName) with
    | none =>
      have hop := (openOrCreate_eq_none_iff host w _).1 ho
      obtain ⟨ih1, ih2⟩ := ih (opened ++ [host.join d cacheName])
      simp only [List.map_cons, List.find?, hop, List.takeWhile, Bool.not_false]
      exact ⟨ih1, by rw [ih2]; simp⟩
    | some fw =>
      obtain ⟨f1, w1⟩ := fw
      obtain ⟨hn, hop⟩ := openOrCreate_name host w w1 _ f1 ho
      simp [List.find?, hop, List.takeWhile, hn]

/-- The outer loop returns the first name that opens among the names of all
the candidates, having tried the names before it and that one. -/
theorem cachePathCandidates_order (host : Host) (candidates opened : List String) (w : World) :
    (cachePathCandidates host candidates opened w).file.map (fun f => f.name)
      = ((candidates.map (fun dir =>
            (stringsSplit dir ':').map (fun d => host.join d cacheName))).flatten).find?
          (opens host w) ∧
    (cachePathCandidates host candidates opened w).opened
      = opened ++ (((candidates.map (fun dir =>
            (stringsSplit dir ':').map (fun d => host.join d cacheName))).flatten).takeWhile
            (fun n => !opens host w n)
          ++ (((candidates.map (fun dir =>
            (stringsSplit dir ':').map (fun d => host.join d cacheName))).flatten).find?
              (opens host w)).toList) := by
  induction candidates generalizing opened with
  | nil => simp [cachePathCandidates]
  | cons dir cs ih =>
    obtain ⟨a1, a2⟩ := cachePathDirs_order host (stringsSplit dir ':') opened w
    simp only [List.map_cons, List.flatten_cons]
    cases h1 : (cachePathDirs host (stringsSplit dir ':') opened w).file with
    | some f1 =>
      rw [h1] at a1
      have hfind : ((stringsSplit dir ':').map (fun d => host.join d cacheName)).find?
          (opens host w) = some f1.name := by simpa using a1.symm
      rw [find_append_of_some _ _ _ _ hfind, takeWhile_append_of_some _ _ _ _ hfind]
      simp only [cachePathCandidates, h1]
      exact ⟨rfl, by rw [a2, hfind]⟩
    | none =>
      rw [h1] at a1
      have hfind : ((stringsSplit dir ':').map (fun d => host.join d cacheName)).find?
          (opens host w) = none := by simpa using a1.symm
      have hw1 := cachePathDirs_none_world host (stringsSplit dir ':') opened w h1
      rw [find_append_of_none _ _ _ hfind, takeWhile_append_of_none _ _ _ hfind]
      simp only [cachePathCandidates, h1, hw1]
      obtain ⟨b1, b2⟩ := ih (cachePathDirs host (stringsSplit dir ':') opened w).opened
      refine ⟨b1, ?_⟩
      rw [b2, a2, hfind, takeWhile_of_none _ _ hfind]
      simp

theorem splitChars_of_not_mem (sep : Char) (cs : List Char) (h : sep ∉ cs) :
    splitChars sep cs = [cs] := by
  induction cs with
  | nil => rfl
  | cons c cs ih =>
    have hc : ¬ c = sep := fun e => h (by simp [e])
    have ht : sep ∉ cs := fun e => h (by simp [e])
    simp [splitChars, hc, ih ht]

theorem splitChars_ne_nil (sep : Char) (cs : List Char) : splitChars sep cs ≠ [] := by
  cases cs with
  | nil => simp [splitChars]
  | cons c cs =>
    unfold splitChars
    split
    · simp
    · split <;> simp

/-- No piece of a split holds the separator. -/
theorem splitChars_no_sep (sep : Char) (cs : List Char) :
    ∀ p ∈ splitChars sep cs, sep ∉ p := by
  induction cs with
  | nil => simp [splitChars]
  | cons c cs ih =>
    intro p hp
    unfold splitChars at hp
    by_cases hc : c = sep
    · simp only [hc, if_true, List.mem_cons] at hp
      rcases hp with e | e
      · simp [e]
      · exact ih p e
    · simp only [hc, if_false] at hp
      cases hsp : splitChars sep cs with
      | nil => exact absurd hsp (splitChars_ne_nil sep cs)
      | cons piece pieces =>
        rw [hsp] at hp ih
        simp only [List.mem_cons] at hp
        rcases hp with e | e
        · rw [e]
          intro hm
          rcases List.mem_cons.1 hm with e1 | e1
          · exact hc e1.symm
          · exact ih piece (by simp) e1
        · exact ih p (by simp [e])

/-- The pieces of a split, put together again with the separator between
them, in their order, are the string that was split. -/
theorem intercalate_go_splitChars (sep : Char) (cs : List Char) (acc : String)
    (p : List Char) (ps : List (List Char)) (h : splitChars sep cs = p :: ps) :
    String.intercalate.go (acc ++ String.mk p) (String.mk [sep]) (ps.map String.mk)
      = acc ++ String.mk cs := by
  induction cs generalizing acc p ps with
  | nil =>
    simp only [splitChars, List.cons.injEq] at h
    obtain ⟨h1, h2⟩ := h
    subst h1 h2
    rfl
  | cons c cs ih =>
    unfold splitChars at h
    cases hsp : splitChars sep cs with
    | nil => exact absurd hsp (splitChars_ne_nil sep cs)
    | cons piece pieces =>
      by_cases hc : c = sep
      · simp only [hc, if_true, hsp, List.cons.injEq] at h
        obtain ⟨h1, h2⟩ := h
        subst h1 h2
        simp only [List.map_cons, String.intercalate.go]
        have e : acc ++ String.mk [] ++ String.mk [sep] ++ String.mk piece
            = (acc ++ String.mk [sep]) ++ String.mk piece := by
          apply String.ext
          simp [String.data_append]
        rw [e, ih (acc ++ String.mk [sep]) piece pieces hsp, hc]
        apply String.ext
        simp [String.data_append]
      · simp only [hc, if_false, hsp, List.cons.injEq] at h
        obtain ⟨h1, h2⟩ := h
        subst h1 h2
        have e : acc ++ String.mk (c :: piece) = (acc ++ String.mk [c]) ++ String.mk piece := by
          apply String.ext
          simp [String.data_append]
        rw [e, ih (acc ++ String.mk [c]) piece pieces hsp]
        apply String.ext
        simp [String.data_append]

/-- `strings.Split(s, ":")` as modelled: the pieces joined by `:` are `s`, and
no piece holds a `:`. -/
theorem stringsSplit_colon (s : String) :
    ":".intercalate (stringsSplit s ':') = s ∧ ∀ d ∈ stringsSplit s ':', ':' ∉ d.data := by
  constructor
  · unfold stringsSplit
    cases hsp : splitChars ':' s.data with
    | nil => exact absurd hsp (splitChars_ne_nil _ _)
    | cons p ps =>
      have h := intercalate_go_splitChars ':' s.data "" p ps hsp
      have e1 : ("" : String) ++ String.mk p = String.mk p := by
        apply String.ext
        simp [String.data_append]
      have e2 : ("" : String) ++ String.mk s.data = s := by
        apply String.ext
        simp [String.data_append]
      rw [e1, e2] at h
      exact h
  · intro d hd
    unfold stringsSplit at hd
    obtain ⟨p, hp, rfl⟩ := List.mem_map.1 hd
    exact splitChars_no_sep ':' s.data p hp

/-- C15: `cachePath` returns the file of the first candidate name, in the
order of `candidateNames`, on which open-or-create succeeds; the names it
passes to `os.OpenFile` are the candidates before that one and that one, no
later one; it returns no file if and only if open-or-create fails on every
candidate. The candidates are the parts of `<HOME>/.cache` and then the
parts of `/tmp`, each joined with `docker-zypper.json`, where the parts of a
string are its pieces between the `:`, left to right: joined by `:` they
give the string back, and none holds a `:`. When `<HOME>/.cache` holds no
`:`, the candidates are `<HOME>/.cache/docker-zypper.json` and
`/tmp/docker-zypper.json`, in that order. -/
theorem C15_resolution_order (host : Host) (w : World) :
    (cachePath host w).file.map (fun f => f.name)
      = (candidateNames host).find? (opens host w) ∧
    (cachePath host w).opened
      = (candidateNames host).takeWhile (fun n => !opens host w n)
          ++ ((candidateNames host).find? (opens host w)).toList ∧
    ((cachePath host w).file = none ↔ ∀ n ∈ candidateNames host, opens host w n = false) ∧
    (∀ n, opens host w n = true ↔ (openOrCreate host w n).isSome = true) ∧
    (':' ∉ (host.join host.home ".cache").data →
      candidateNames host
        = [host.join (host.join host.home ".cache") cacheName, host.join "/tmp" cacheName]) ∧
    candidateNames host
      = (stringsSplit (host.join host.home ".cache") ':').map (fun d => host.join d cacheName)
        ++ (stringsSplit "/tmp" ':').map (fun d => host.join d cacheName) ∧
    (∀ dir : String, ":".intercalate (stringsSplit dir ':') = dir ∧
      ∀ d ∈ stringsSplit dir ':', ':' ∉ d.data) := by
  have key : (cachePath host w).file.map (fun f => f.name)
        = (candidateNames host).find? (opens host w) ∧
      (cachePath host w).opened
        = (candidateNames host).takeWhile (fun n => !opens host w n)
            ++ ((candidateNames host).find? (opens host w)).toList := by
    have h := cachePathCandidates_order host [host.join host.home ".cache", "/tmp"] [] w
    simpa [cachePath, candidateNames] using h
  refine ⟨key.1, key.2, ?_, ?_, ?_, rfl, stringsSplit_colon⟩
  · have h := key.1
    constructor
    · intro hnone n hn
      rw [hnone] at h
      have hf : (candidateNames host).find? (opens host w) = none := by simpa using h.symm
      have := List.find?_eq_none.1 hf n hn
      simpa using this
    · intro hall
      have hf : (candidateNames host).find? (opens host w) = none := by
        apply List.find?_eq_none.2
        intro n hn
        simp [hall n hn]
      rw [hf] at h
      cases hfile : (cachePath host w).file with
      | none => rfl
      | some f => rw [hfile] at h; simp at h
  · intro n
    cases ho : openOrCreate host w n with
    | none => simp [(openOrCreate_eq_none_iff host w n).1 ho]
    | some fw => simp [(openOrCreate_name host w fw.2 n fw.1 ho).2]
  · intro hno
    have h1 : stringsSplit (host.join host.home ".cache") ':'
        = [host.join host.home ".cache"] := by
      unfold stringsSplit
      rw [splitChars_of_not_mem _ _ hno]
      rfl
    have h2 : stringsSplit "/tmp" ':' = ["/tmp"] := by decide
    simp [candidateNames, h1, h2]

/-- C15 on two hosts. With a home without `:`, the candidates are the file
under `/home/geeko/.cache`, then the file under `/tmp`. With `HOME` set to
`/srv/a:/srv/b`, the candidate `/srv/a:/srv/b/.cache` is split: the file is
tried under `/srv/a`, then under `/srv/b/.cache`, which opens and is
returned; the file under `/tmp` is not tried. -/
theorem C15_resolution_order_witness :
    candidateNames hostReadOnly
      = [hostReadOnly.join (hostReadOnly.join hostReadOnly.home ".cache") cacheName,
         hostReadOnly.join "/tmp" cacheName] ∧
    (cachePath hostTwoHomes emptyWorld).file.map (fun f => f.name)
      = some "/srv/b/.cache/docker-zypper.json" ∧
    (cachePath hostTwoHomes emptyWorld).opened
      = ["/srv/a/docker-zypper.json", "/srv/b/.cache/docker-zypper.json"] ∧
    ":".intercalate (stringsSplit "/srv/a:/srv/b/.cache" ':') = "/srv/a:/srv/b/.cache" :=
  ⟨(C15_resolution_order hostReadOnly freshWorld).2.2.2.2.1 (by decide),
   (C15_resolution_order hostTwoHomes emptyWorld).1.trans (by decide),
   (C15_resolution_order hostTwoHomes emptyWorld).2.1.trans (by decide),
   ((C15_resolution_order hostTwoHomes emptyWorld).2.2.2.2.2.2 "/srv/a:/srv/b/.cache").1⟩

/-- A `HOME` that lists two directories: the first part is tried without
`.cache`, the second with it; `/tmp` is not tried once the second opens. -/
theorem cachePath_two_homes :
    candidateNames hostTwoHomes
      = ["/srv/a/docker-zypper.json", "/srv/b/.cache/docker-zypper.json",
         "/tmp/docker-zypper.json"] ∧
    (cachePath hostTwoHomes emptyWorld).file
      = some { name := "/srv/b/.cache/docker-zypper.json", content := "" } ∧
    (cachePath hostTwoHomes emptyWorld).opened
      = ["/srv/a/docker-zypper.json", "/srv/b/.cache/docker-zypper.json"] ∧
    (cachePath hostTwoHomes emptyWorld).world.files "/tmp/docker-zypper.json" = none := by
  refine ⟨by decide, by decide, by decide, by decide⟩

/-! ## C16: no duplicates -/

/-- C16: when `Suse`, `Other` and `Outdated` are each free of duplicates,
they still are after `isSUSE(id)`, after `updateCacheAfterUpdate(outdatedImg,
updatedImgId)` and after `reset()`, for every probe, resolver, encoder and
argument; and re-adding is a no-op: `isSUSE` on an id already in `Suse` or
`Other` leaves the record as it is, and `updateCacheAfterUpdate` leaves
`Outdated` as it is when the resolved id is in it and `Suse` as it is when
`updatedImgId` is in it. -/
theorem C16_no_duplicates (probe : Probe) (getImageId : Resolver) (encode : Encoder)
    (cd : cachedData) (id outdatedImg updatedImgId : String) (w : World)
    (hs : cd.Suse.Nodup) (ho : cd.Other.Nodup) (hd : cd.Outdated.Nodup) :
    ((isSUSE probe cd id w).cd.Suse.Nodup ∧ (isSUSE probe cd id w).cd.Other.Nodup ∧
      (isSUSE probe cd id w).cd.Outdated.Nodup) ∧
    ((updateCacheAfterUpdate getImageId encode cd outdatedImg updatedImgId w).cd.Suse.Nodup ∧
      (updateCacheAfterUpdate getImageId encode cd outdatedImg updatedImgId w).cd.Other.Nodup ∧
      (updateCacheAfterUpdate getImageId encode cd outdatedImg updatedImgId w).cd.Outdated.Nodup) ∧
    ((reset encode cd w).cd.Suse.Nodup ∧ (reset encode cd w).cd.Other.Nodup ∧
      (reset encode cd w).cd.Outdated.Nodup) ∧
    ((id ∈ cd.Suse ∨ id ∈ cd.Other) → (isSUSE probe cd id w).cd = cd) ∧
    (∀ o, getImageId outdatedImg = .ok o → o ∈ cd.Outdated →
      (updateCacheAfterUpdate getImageId encode cd outdatedImg updatedImgId w).cd.Outdated
        = cd.Outdated) ∧
    (updatedImgId ∈ cd.Suse →
      (updateCacheAfterUpdate getImageId encode cd outdatedImg updatedImgId w).cd.Suse
        = cd.Suse) := by
  refine ⟨?_, ?_, ?_, ?_, ?_, ?_⟩
  · cases hv : cd.Valid
    · simp [isSUSE, hv, hs, ho, hd]
    · cases hes : arrayIncludeString cd.Suse id <;> cases heo : arrayIncludeString cd.Other id <;>
        cases hp : probe id "zypper" <;>
        simp [isSUSE, idExists, hv, hes, heo, hp, hs, ho, hd, List.nodup_append,
          (arrayIncludeString_false_iff _ _).1, *]
  · cases hr : getImageId outdatedImg with
    | error err =>
      rw [updateCacheAfterUpdate_error getImageId encode cd outdatedImg updatedImgId err w hr]
      exact ⟨hs, ho, hd⟩
    | ok o =>
      rw [updateCacheAfterUpdate_cd_ok getImageId encode cd outdatedImg updatedImgId o w hr]
      refine ⟨?_, ho, ?_⟩
      · by_cases h : updatedImgId ∈ cd.Suse <;> simp [h, hs, List.nodup_append]
      · by_cases h : o ∈ cd.Outdated <;> simp [h, hd, List.nodup_append]
  · simp [reset, flush_cd, hd]
  · intro hk
    cases hv : cd.Valid
    · simp [isSUSE, hv]
    · have hex : (arrayIncludeString cd.Suse id || arrayIncludeString cd.Other id) = true := by
        rcases hk with h | h
        · simp [(arrayIncludeString_iff _ _).2 h]
        · simp [(arrayIncludeString_iff _ _).2 h]
      simp [isSUSE, idExists, hv, hex]
  · intro o hr hmem
    rw [updateCacheAfterUpdate_cd_ok getImageId encode cd outdatedImg updatedImgId o w hr]
    simp [hmem]
  · intro hmem
    cases hr : getImageId outdatedImg with
    | error err =>
      rw [updateCacheAfterUpdate_error getImageId encode cd outdatedImg updatedImgId err w hr]
    | ok o =>
      rw [updateCacheAfterUpdate_cd_ok getImageId encode cd outdatedImg updatedImgId o w hr]
      simp [hmem]

/-- C16 on the warm cache `Suse = ["1"]`, `Other = ["3"]`: probing `2`,
recording the update of `myrepo:tag`, and resetting keep the lists free of
duplicates. -/
theorem C16_no_duplicates_witness :
    (isSUSE probeYes (tmpHandle ["1"] ["3"] []) "2" freshWorld).cd.Suse.Nodup ∧
    (updateCacheAfterUpdate resolveMyrepo encodePlain (tmpHandle ["1"] ["3"] [])
      "myrepo:tag" "newid123" freshWorld).cd.Suse.Nodup ∧
    (reset encodePlain (tmpHandle ["1"] ["3"] []) freshWorld).cd.Suse.Nodup :=
  have key := C16_no_duplicates probeYes resolveMyrepo encodePlain (tmpHandle ["1"] ["3"] [])
    "2" "myrepo:tag" "newid123" freshWorld (by simp [tmpHandle]) (by simp [tmpHandle])
    (by simp [tmpHandle])
  ⟨key.1.1, key.2.1.1, key.2.2.1.1⟩

/-! ## C17: write-through on update recording -/

/-- C17: on a valid handle whose backing file can be opened, when
`outdatedImg` resolves: if `updateCacheAfterUpdate` appends an id (`Outdated`
or `Suse` is no longer what it was), the backing file holds the
serialization of the record the call leaves; if it appends nothing (both
lists are what they were), no file is written. -/
theorem C17_update_write_through (getImageId : Resolver) (encode : Encoder) (cd : cachedData)
    (outdatedImg updatedImgId o c : String) (w : World)
    (hv : cd.Valid = true) (hf : w.files cd.Path = some c)
    (hr : getImageId outdatedImg = .ok o) :
    (((updateCacheAfterUpdate getImageId encode cd outdatedImg updatedImgId w).cd.Outdated
          ≠ cd.Outdated ∨
      (updateCacheAfterUpdate getImageId encode cd outdatedImg updatedImgId w).cd.Suse
          ≠ cd.Suse) →
      (updateCacheAfterUpdate getImageId encode cd outdatedImg updatedImgId w).world.files cd.Path
        = some (encode
            (updateCacheAfterUpdate getImageId encode cd outdatedImg updatedImgId w).cd.Suse
            (updateCacheAfterUpdate getImageId encode cd outdatedImg updatedImgId w).cd.Other
            (updateCacheAfterUpdate getImageId encode cd outdatedImg updatedImgId w).cd.Outdated)) ∧
    (((updateCacheAfterUpdate getImageId encode cd outdatedImg updatedImgId w).cd.Outdated
          = cd.Outdated ∧
      (updateCacheAfterUpdate getImageId encode cd outdatedImg updatedImgId w).cd.Suse
          = cd.Suse) →
      (updateCacheAfterUpdate getImageId encode cd outdatedImg updatedImgId w).world.files
        = w.files) := by
  by_cases h1 : o ∈ cd.Outdated <;> by_cases h2 : updatedImgId ∈ cd.Suse <;>
    simp [updateCacheAfterUpdate, hr, arrayIncludeString_eq_decide, h1, h2, flush, hv, hf]

/-- C17 on scenario 3, from the warm cache `Suse = ["1"]`, `Other = ["3"]`:
the file holds the record with `newid123` and `oldid456`. -/
theorem C17_update_write_through_witness :
    (updateCacheAfterUpdate resolveMyrepo encodePlain (tmpHandle ["1"] ["3"] [])
        "myrepo:tag" "newid123" freshWorld).world.files (tmpHandle ["1"] ["3"] []).Path
      = some (encodePlain
          (updateCacheAfterUpdate resolveMyrepo encodePlain (tmpHandle ["1"] ["3"] [])
            "myrepo:tag" "newid123" freshWorld).cd.Suse
          (updateCacheAfterUpdate resolveMyrepo encodePlain (tmpHandle ["1"] ["3"] [])
            "myrepo:tag" "newid123" freshWorld).cd.Other
          (updateCacheAfterUpdate resolveMyrepo encodePlain (tmpHandle ["1"] ["3"] [])
            "myrepo:tag" "newid123" freshWorld).cd.Outdated) :=
  (C17_update_write_through resolveMyrepo encodePlain (tmpHandle ["1"] ["3"] [])
    "myrepo:tag" "newid123" "oldid456" "" freshWorld rfl (by decide) (by rfl)).1
    (Or.inl (by decide))

/-! ## C18: `parseImageName` -/

theorem cutFirst_of_not_mem (sep : Char) (cs : List Char) (h : sep ∉ cs) :
    cutFirst sep cs = none := by
  induction cs with
  | nil => rfl
  | cons c cs ih =>
    have hc : ¬ c = sep := fun e => h (by simp [e])
    have ht : sep ∉ cs := fun e => h (by simp [e])
    simp [cutFirst, hc, ih ht]

theorem cutFirst_of_mem (sep : Char) (cs : List Char) (h : sep ∈ cs) :
    ∃ before after, cutFirst sep cs = some (before, after) ∧
      cs = before ++ sep :: after ∧ sep ∉ before := by
  induction cs with
  | nil => simp at h
  | cons c cs ih =>
    by_cases hc : c = sep
    · exact ⟨[], cs, by simp [cutFirst, hc], by simp [hc], by simp⟩
    · have ht : sep ∈ cs := by
        rcases List.mem_cons.1 h with e | e
        · exact absurd e.symm hc
        · exact e
      obtain ⟨before, after, h1, h2, h3⟩ := ih ht
      refine ⟨c :: before, after, by simp [cutFirst, hc, h1], by simp [h2], ?_⟩
      intro hm
      rcases List.mem_cons.1 hm with e | e
      · exact hc e.symm
      · exact h3 e

/-- C18: a name without `:` gives `(name, "latest")`; a name with `:` gives
the part before the first `:` and everything after it: the repository holds
no `:`, and repository, `:` and tag put together are the name. -/
theorem C18_parseImageName (name : String) :
    (':' ∉ name.data → parseImageName name = (name, "latest")) ∧
    (':' ∈ name.data →
      ∃ before after : List Char,
        name.data = before ++ ':' :: after ∧ ':' ∉ before ∧
        parseImageName name = (String.mk before, String.mk after) ∧
        ':' ∉ (parseImageName name).1.data ∧
        (parseImageName name).1 ++ ":" ++ (parseImageName name).2 = name) := by
  constructor
  · intro h
    simp [parseImageName, stringsSplitN2, cutFirst_of_not_mem _ _ h]
  · intro h
    obtain ⟨before, after, h1, h2, h3⟩ := cutFirst_of_mem _ _ h
    have hp : parseImageName name = (String.mk before, String.mk after) := by
      simp [parseImageName, stringsSplitN2, h1]
    refine ⟨before, after, h2, h3, hp, ?_, ?_⟩
    · rw [hp]; exact h3
    · rw [hp]
      apply String.ext
      simp [String.data_append, h2]

/-- C18 on the two examples of the source. -/
theorem C18_parseImageName_witness :
    parseImageName "suse/sles11sp3" = ("suse/sles11sp3", "latest") ∧
    ∃ before after : List Char,
      "suse/sles11sp3:1.0.0".data = before ++ ':' :: after ∧ ':' ∉ before ∧
      parseImageName "suse/sles11sp3:1.0.0" = (String.mk before, String.mk after) ∧
      ':' ∉ (parseImageName "suse/sles11sp3:1.0.0").1.data ∧
      (parseImageName "suse/sles11sp3:1.0.0").1 ++ ":" ++ (parseImageName "suse/sles11sp3:1.0.0").2
        = "suse/sles11sp3:1.0.0" :=
  ⟨(C18_parseImageName "suse/sles11sp3").1 (by decide),
   (C18_parseImageName "suse/sles11sp3:1.0.0").2 (by decide)⟩

/-- The examples of the source, evaluated; the split is at the first colon. -/
theorem parseImageName_examples :
    parseImageName "suse/sles11sp3:1.0.0" = ("suse/sles11sp3", "1.0.0") ∧
    parseImageName "suse/sles11sp3" = ("suse/sles11sp3", "latest") ∧
    parseImageName "localhost:5000/suse:1" = ("localhost", "5000/suse:1") := by
  refine ⟨by decide, by decide, by decide⟩

/-! ## C19: `cmdWithFlags` -/

theorem arrayInclude_iff (s : String) (arr : List String) :
    arrayInclude s arr = true ↔ s ∈ arr := by
  induction arr with
  | nil => simp [arrayInclude]
  | cons i rest ih =>
    by_cases h : i = s
    · simp [arrayInclude, h]
    · have h2 : ¬ s = i := fun e => h e.symm
      simp [arrayInclude, h, h2, ih]

/-- A flag whose boolean value is true has a value whose text is not empty. -/
theorem stringValue_ne_empty_of_boolValue (ctx : Context) (name : String)
    (h : ctx.BoolValue name = true) : ctx.StringValue name ≠ "" := by
  unfold Context.BoolValue at h
  unfold Context.StringValue
  cases hl : ctx.lookup name with
  | none => simp [hl] at h
  | some v =>
    simp only [hl] at h
    intro he
    have hv : v = "" := by simpa using he
    rw [hv] at h
    exact absurd h (by decide)

/-- One turn of the loop of `cmdWithFlags` appends the flag's piece. -/
theorem cmdWithFlags_step (ctx : Context) (boolFlags : List String) (cmd name : String) :
    (if ctx.StringValue name ≠ "" then
        if arrayInclude name boolFlags then
          if ctx.BoolValue name then cmd ++ (" " ++ flagDash name ++ name) else cmd
        else
          cmd ++ (" " ++ flagDash name ++ name ++ " " ++ ctx.StringValue name)
      else cmd)
      = cmd ++ flagPiece ctx boolFlags name := by
  unfold flagPiece
  by_cases hb : name ∈ boolFlags
  · have hi : arrayInclude name boolFlags = true := (arrayInclude_iff _ _).2 hb
    cases hv : ctx.BoolValue name
    · simp [hb, hi, hv]
    · have hne := stringValue_ne_empty_of_boolValue ctx name hv
      simp [hb, hi, hv, hne]
  · have hi : arrayInclude name boolFlags = false := by
      cases h : arrayInclude name boolFlags
      · rfl
      · exact absurd ((arrayInclude_iff _ _).1 h) hb
    by_cases he : ctx.StringValue name = ""
    · simp [hb, hi, he]
    · simp [hb, hi, he]

theorem cmdWithFlags_foldl (ctx : Context) (boolFlags names : List String) (cmd : String) :
    names.foldl
      (fun cmd name =>
        let value := ctx.StringValue name
        if value ≠ "" then
          let dash := flagDash name
          if arrayInclude name boolFlags then
            if ctx.BoolValue name then cmd ++ (" " ++ dash ++ name) else cmd
          else
            cmd ++ (" " ++ dash ++ name ++ " " ++ value)
        else cmd)
      cmd
      = cmd ++ concatPieces (names.map (flagPiece ctx boolFlags)) := by
  induction names generalizing cmd with
  | nil => simp [concatPieces]
  | cons n ns ih =>
    simp only [List.foldl_cons, List.map_cons, concatPieces]
    rw [cmdWithFlags_step ctx boolFlags cmd n, ih, String.append_assoc]

theorem utf8ByteSize_go_ascii (cs : List Char) (h : ∀ c ∈ cs, c.toNat < 128) :
    String.utf8ByteSize.go cs = cs.length := by
  induction cs with
  | nil => rfl
  | cons c cs ih =>
    have hc : c.utf8Size = 1 := by
      unfold Char.utf8Size
      have h1 := h c (by simp)
      have : c.val ≤ 0x7F := by
        show c.val.toNat ≤ 127
        simp [Char.toNat] at h1
        omega
      simp [this]
    have ht : ∀ x ∈ cs, x.toNat < 128 := fun x hx => h x (by simp [hx])
    show String.utf8ByteSize.go cs + c.utf8Size = cs.length + 1
    rw [hc, ih ht]

theorem utf8Size_eq_one_iff (c : Char) : c.utf8Size = 1 ↔ c.toNat < 128 := by
  unfold Char.utf8Size
  dsimp only
  split_ifs with h1 h2 h3
  · have h : c.val.toNat ≤ 127 := h1
    simp only [Char.toNat, true_iff]
    omega
  · have h : ¬ c.val.toNat ≤ 127 := h1
    simp only [Char.toNat]
    omega
  · have h : ¬ c.val.toNat ≤ 127 := h1
    simp only [Char.toNat]
    omega
  · have h : ¬ c.val.toNat ≤ 127 := h1
    simp only [Char.toNat]
    omega

/-- Go's `len(name)` is 1 exactly for a name of one character that is an
ASCII character. -/
theorem utf8ByteSize_eq_one_iff (name : String) :
    name.utf8ByteSize = 1 ↔ (name.length = 1 ∧ ∀ c ∈ name.data, c.toNat < 128) := by
  cases name with
  | mk cs =>
    show String.utf8ByteSize.go cs = 1 ↔ (cs.length = 1 ∧ ∀ c ∈ cs, c.toNat < 128)
    match cs with
    | [] => simp [String.utf8ByteSize.go]
    | [c] =>
      show String.utf8ByteSize.go [] + c.utf8Size = 1 ↔ _
      simp [String.utf8ByteSize.go, utf8Size_eq_one_iff]
    | c :: d :: rest =>
      show String.utf8ByteSize.go rest + d.utf8Size + c.utf8Size = 1 ↔ _
      have h1 := Char.utf8Size_pos c
      have h2 := Char.utf8Size_pos d
      constructor
      · intro h; omega
      · intro h; simp at h

/-- C19, as stated, fails: the flag name `é` is one character long, yet
`len("é")` is 2, so its dash is double: `cmdWithFlags` gives `zypper --é 1`
where a single dash was claimed. -/
theorem C19_counterexample :
    "é".length = 1 ∧
    flagDash "é" = "--" ∧
    cmdWithFlags "zypper" accentContext [] = "zypper --é 1" := by
  refine ⟨by decide, by decide, by decide⟩

/-- C19, amended: `cmdWithFlags(cmd, ctx, boolFlags)` is `cmd` followed by one
piece per flag of `ctx.FlagNames()`, in that order. A flag named in
`boolFlags` gives its dashed name, without value, when its boolean value is
true, and nothing when it is false; a flag not named in `boolFlags` whose
value is not empty gives its dashed name and its value; a flag whose value
is empty gives nothing. The dash is single exactly when `len(name) == 1`,
that is when the name is one byte long: one character, and that character
an ASCII one. -/
theorem C19_cmdWithFlags (cmd : String) (ctx : Context) (boolFlags : List String) :
    cmdWithFlags cmd ctx boolFlags
      = cmd ++ concatPieces (ctx.FlagNames.map (flagPiece ctx boolFlags)) ∧
    (∀ name, name ∈ boolFlags → ctx.BoolValue name = true →
      flagPiece ctx boolFlags name = " " ++ flagDash name ++ name) ∧
    (∀ name, name ∈ boolFlags → ctx.BoolValue name = false →
      flagPiece ctx boolFlags name = "") ∧
    (∀ name, name ∉ boolFlags → ctx.StringValue name ≠ "" →
      flagPiece ctx boolFlags name
        = " " ++ flagDash name ++ name ++ " " ++ ctx.StringValue name) ∧
    (∀ name, ctx.StringValue name = "" → flagPiece ctx boolFlags name = "") ∧
    (∀ name : String, (flagDash name = "-" ↔ name.utf8ByteSize = 1) ∧
      (flagDash name = "--" ↔ name.utf8ByteSize ≠ 1)) ∧
    (∀ name : String, (∀ c ∈ name.data, c.toNat < 128) →
      (flagDash name = "-" ↔ name.length = 1)) ∧
    (∀ name : String,
      flagDash name = "-" ↔ (name.length = 1 ∧ ∀ c ∈ name.data, c.toNat < 128)) := by
  refine ⟨cmdWithFlags_foldl ctx boolFlags ctx.FlagNames cmd, ?_, ?_, ?_, ?_, ?_, ?_, ?_⟩
  · intro name hb hv
    simp [flagPiece, hb, hv]
  · intro name hb hv
    simp [flagPiece, hb, hv]
  · intro name hb hv
    simp [flagPiece, hb, hv]
  · intro name he
    by_cases hb : name ∈ boolFlags
    · cases hv : ctx.BoolValue name
      · simp [flagPiece, hb, hv]
      · exact absurd he (stringValue_ne_empty_of_boolValue ctx name hv)
    · simp [flagPiece, hb, he]
  · intro name
    unfold flagDash
    by_cases h : name.utf8ByteSize = 1
    · rw [if_pos h]
      exact ⟨⟨fun _ => h, fun _ => rfl⟩, ⟨fun e => absurd e (by decide), fun hn => absurd h hn⟩⟩
    · rw [if_neg h]
      exact ⟨⟨fun e => absurd e (by decide), fun e => absurd e h⟩, ⟨fun _ => h, fun _ => rfl⟩⟩
  · intro name hascii
    have hlen : name.utf8ByteSize = name.length := by
      cases name with
      | mk cs => exact utf8ByteSize_go_ascii cs hascii
    unfold flagDash
    rw [hlen]
    by_cases h : name.length = 1
    · simp [h]
    · simp only [h, if_false, iff_false]
      decide
  · intro name
    rw [← utf8ByteSize_eq_one_iff]
    unfold flagDash
    by_cases h : name.utf8ByteSize = 1
    · rw [if_pos h]
      exact ⟨fun _ => h, fun _ => rfl⟩
    · rw [if_neg h]
      exact ⟨fun e => absurd e (by decide), fun e => absurd e h⟩

/-- C19, amended, on a context with the boolean flags `l` (true) and `no-recommends`
(false), the flag `bugzilla` with value `123` and the flag `cve` with an
empty value. -/
theorem C19_cmdWithFlags_witness :
    cmdWithFlags "zypper lp" sampleContext ["l", "no-recommends"]
      = "zypper lp" ++ concatPieces
          (sampleContext.FlagNames.map (flagPiece sampleContext ["l", "no-recommends"])) ∧
    flagPiece sampleContext ["l", "no-recommends"] "l" = " " ++ flagDash "l" ++ "l" ∧
    flagPiece sampleContext ["l", "no-recommends"] "no-recommends" = "" ∧
    flagPiece sampleContext ["l", "no-recommends"] "bugzilla"
      = " " ++ flagDash "bugzilla" ++ "bugzilla" ++ " " ++ sampleContext.StringValue "bugzilla" ∧
    flagPiece sampleContext ["l", "no-recommends"] "cve" = "" ∧
    (flagDash "l" = "-" ↔ "l".length = 1) :=
  have key := C19_cmdWithFlags "zypper lp" sampleContext ["l", "no-recommends"]
  ⟨key.1, key.2.1 "l" (by decide) (by decide),
   key.2.2.1 "no-recommends" (by decide) (by decide),
   key.2.2.2.1 "bugzilla" (by decide) (by decide),
   key.2.2.2.2.1 "cve" (by decide),
   key.2.2.2.2.2.2.1 "l" (by decide)⟩

/-- The command line built for the sample context. -/
theorem cmdWithFlags_example :
    cmdWithFlags "zypper lp" sampleContext ["l", "no-recommends"]
      = "zypper lp -l --bugzilla 123" := by
  decide

/-! ## C20: append-only growth -/

/-- C20: `isSUSE` and `updateCacheAfterUpdate` only append: each of `Suse`,
`Other` and `Outdated` after the call is the list before the call followed
by at most one id, for every handle, probe, resolver, encoder and argument;
and `isSUSE` leaves `Outdated` as it is. -/
theorem C20_append_only (probe : Probe) (getImageId : Resolver) (encode : Encoder)
    (cd : cachedData) (id outdatedImg updatedImgId : String) (w : World) :
    (∃ t, (isSUSE probe cd id w).cd.Suse = cd.Suse ++ t ∧ t.length ≤ 1) ∧
    (∃ t, (isSUSE probe cd id w).cd.Other = cd.Other ++ t ∧ t.length ≤ 1) ∧
    (isSUSE probe cd id w).cd.Outdated = cd.Outdated ∧
    (∃ t, (updateCacheAfterUpdate getImageId encode cd outdatedImg updatedImgId w).cd.Suse
        = cd.Suse ++ t ∧ t.length ≤ 1) ∧
    (∃ t, (updateCacheAfterUpdate getImageId encode cd outdatedImg updatedImgId w).cd.Other
        = cd.Other ++ t ∧ t.length ≤ 1) ∧
    (∃ t, (updateCacheAfterUpdate getImageId encode cd outdatedImg updatedImgId w).cd.Outdated
        = cd.Outdated ++ t ∧ t.length ≤ 1) := by
  refine ⟨?_, ?_, isSUSE_outdated probe cd id w, ?_, ?_, ?_⟩
  · unfold isSUSE
    split
    · exact ⟨[], by simp, by simp⟩
    · dsimp only
      split
      · split
        · exact ⟨[id], rfl, by simp⟩
        · exact ⟨[], by simp, by simp⟩
      · exact ⟨[], by simp, by simp⟩
  · unfold isSUSE
    split
    · exact ⟨[], by simp, by simp⟩
    · dsimp only
      split
      · split
        · exact ⟨[], by simp, by simp⟩
        · exact ⟨[id], rfl, by simp⟩
      · exact ⟨[], by simp, by simp⟩
  · cases hr : getImageId outdatedImg with
    | error err =>
      rw [updateCacheAfterUpdate_error getImageId encode cd outdatedImg updatedImgId err w hr]
      exact ⟨[], by simp, by simp⟩
    | ok o =>
      rw [updateCacheAfterUpdate_cd_ok getImageId encode cd outdatedImg updatedImgId o w hr]
      by_cases h : updatedImgId ∈ cd.Suse
      · exact ⟨[], by simp [h], by simp⟩
      · exact ⟨[updatedImgId], by simp [h], by simp⟩
  · cases hr : getImageId outdatedImg with
    | error err =>
      rw [updateCacheAfterUpdate_error getImageId encode cd outdatedImg updatedImgId err w hr]
      exact ⟨[], by simp, by simp⟩
    | ok o =>
      rw [updateCacheAfterUpdate_cd_ok getImageId encode cd outdatedImg updatedImgId o w hr]
      exact ⟨[], by simp, by simp⟩
  · cases hr : getImageId outdatedImg with
    | error err =>
      rw [updateCacheAfterUpdate_error getImageId encode cd outdatedImg updatedImgId err w hr]
      exact ⟨[], by simp, by simp⟩
    | ok o =>
      rw [updateCacheAfterUpdate_cd_ok getImageId encode cd outdatedImg updatedImgId o w hr]
      by_cases h : o ∈ cd.Outdated
      · exact ⟨[], by simp [h], by simp⟩
      · exact ⟨[o], by simp [h], by simp⟩

/-- The forced listing of `TestImagesForce`: after a reset, the images `1`,
`2`, `4` are probed as SUSE and `3` as not, in that order. -/
theorem append_only_example :
    (isSUSE probeYes (isSUSE probeNo (isSUSE probeYes (isSUSE probeYes
        (reset encodePlain (tmpHandle ["1234"] [] []) freshWorld).cd
        "1" freshWorld).cd "2" freshWorld).cd "3" freshWorld).cd "4" freshWorld).cd
      = tmpHandle ["1", "2", "4"] ["3"] [] := by
  decide

end ZypperDocker
